import Mathlib

/-!
Verification development for the adaptive lesson session engine repository
(`spacey_demo_2`).  The development shallowly embeds, in Lean:

* the JSON value model and the tolerant response-normalization layer
  (`src/server/utils/jsonParser.js`: `fixCommonJSONIssues`,
  `parseAIJSONResponse`), including an executable model of `JSON.parse`
  and `JSON.stringify`;
* the lesson planner (`LessonPlanner.createPlan`);
* the step content generator
  (`dynamicLessonGenerator.js`: `generateContentForStep`);
* the session state machine
  (`lessonSessionEngine.js`: `nextTurn`, `submitResponse`,
  `_ensureTurnsForBlock`, `_splitContentIntoTurns`, `_currentTurnPayload`).

External collaborators (the generation service, assessment, personalization
and context services) are modelled as oracles: their results are universally
quantified parameters, and a call that may reject is an `Except Unit _`
value.  JavaScript exceptions of the embedded code are modelled with
`Except`/`Option`; a `catch` is a `match`.

Modelling notes on the JavaScript runtime:
* JSON numbers are modelled exactly for integers (`J.num`); a numeric
  literal with a fractional part is kept as its literal text (`J.numF`),
  so no floating-point semantics are assumed.  Exponent-notation numeric
  literals are not modelled (no input in this development contains one).
* `JSON.parse` is modelled by `jsonParse` below: it accepts the JSON
  grammar over the characters that occur in this development; it is
  slightly more lenient than the real `JSON.parse` in accepting leading
  zeros in numerals and lone surrogate escapes (no input here contains
  either).
* String indices count characters rather than UTF-16 code units; all
  inputs in this development are ASCII, where the two coincide.
-/

/-- JavaScript value produced by `JSON.parse` (also used for the duck-typed
objects the planner and generator build).  Arrays are `List`s, objects are
ordered association lists (JS objects preserve insertion order). -/
inductive J where
  | null
  | bool (b : Bool)
  | num (n : Int)
  | numF (lit : String)
  | nan
  | str (s : String)
  | arr (elems : List J)
  | obj (fields : List (String × J))

/- Named characters that the surrounding file avoids writing as literals. -/

/-- The double-quote character. -/
def quoteC : Char := Char.ofNat 34

/-- The backslash character. -/
def bslashC : Char := Char.ofNat 92

/-- The left-brace character. -/
def lbraceC : Char := Char.ofNat 123

/-- The right-brace character. -/
def rbraceC : Char := Char.ofNat 125

/-- The single-quote character. -/
def squoteC : Char := Char.ofNat 39

/-- The backtick character. -/
def btickC : Char := Char.ofNat 96

/-- The backspace character (escaped as a b in JSON strings). -/
def bsC : Char := Char.ofNat 8

/-- The form-feed character (escaped as an f in JSON strings). -/
def ffC : Char := Char.ofNat 12

/-- The vertical-tab character (in the regex whitespace class). -/
def vtC : Char := Char.ofNat 11

/-- Whitespace accepted between tokens by `JSON.parse`. -/
def isJsonWs (c : Char) : Bool :=
  c = ' ' || c = '\t' || c = '\n' || c = '\r'

/-- Whitespace matched by the regex class used in `fixCommonJSONIssues`
(ASCII fragment; no input in this development contains non-ASCII blanks). -/
def isReWs (c : Char) : Bool :=
  c = ' ' || c = '\t' || c = '\n' || c = '\r' || c = ffC || c = vtC

/-- Decimal digit test. -/
def isDigitC (c : Char) : Bool := 48 ≤ c.toNat && c.toNat ≤ 57

/-- Character of a decimal digit value. -/
def digitC (m : Nat) : Char := Char.ofNat (48 + m)

/-- Lower-case hex character of a value below 16 (as produced by the
number-to-string conversions used when serializing control characters). -/
def hexC (m : Nat) : Char := if m < 10 then digitC m else Char.ofNat (87 + m)

/-- Value of a hex digit character (used by the u-escape of `JSON.parse`). -/
def hexVal (c : Char) : Option Nat :=
  if 48 ≤ c.toNat && c.toNat ≤ 57 then some (c.toNat - 48)
  else if 97 ≤ c.toNat && c.toNat ≤ 102 then some (c.toNat - 87)
  else if 65 ≤ c.toNat && c.toNat ≤ 70 then some (c.toNat - 55)
  else none

/-- Decimal digit list of a natural number, most significant first; the
fuel argument bounds the recursion depth (`n` itself is always enough). -/
def natDigitsAux : Nat → Nat → List Char
  | 0, _ => []
  | fuel + 1, n => if n = 0 then [] else natDigitsAux fuel (n / 10) ++ [digitC (n % 10)]

/-- Decimal digit string of a natural number. -/
def natChars (n : Nat) : List Char := if n = 0 then ['0'] else natDigitsAux n n

/-- Decimal digit string of an integer, as printed by `JSON.stringify`. -/
def intChars (n : Int) : List Char :=
  if n < 0 then '-' :: natChars n.natAbs else natChars n.natAbs

/-- Natural number denoted by a list of decimal digit characters. -/
def digitsToNat (l : List Char) : Nat :=
  l.foldl (fun acc c => acc * 10 + (c.toNat - 48)) 0

/-- Escape of one character inside a JSON string literal, as produced by
`JSON.stringify`. -/
def escChar (c : Char) : List Char :=
  if c = quoteC then [bslashC, quoteC]
  else if c = bslashC then [bslashC, bslashC]
  else if c = bsC then [bslashC, 'b']
  else if c = ffC then [bslashC, 'f']
  else if c = '\n' then [bslashC, 'n']
  else if c = '\r' then [bslashC, 'r']
  else if c = '\t' then [bslashC, 't']
  else if c.toNat < 32 then
    [bslashC, 'u', '0', '0', hexC (c.toNat / 16), hexC (c.toNat % 16)]
  else [c]

/-- Escape of a whole string body. -/
def escStr (l : List Char) : List Char := (l.map escChar).flatten

mutual
/-- Model of `JSON.stringify` on a JS value (no indentation argument, as in
the repository's calls): the canonical compact serialization. -/
def sV : J → List Char
  | .null => ['n', 'u', 'l', 'l']
  | .nan => ['n', 'u', 'l', 'l']
  | .bool false => ['f', 'a', 'l', 's', 'e']
  | .bool true => ['t', 'r', 'u', 'e']
  | .num n => intChars n
  | .numF lit => lit.data
  | .str s => quoteC :: escStr s.data ++ [quoteC]
  | .arr l => '[' :: sArr l ++ [']']
  | .obj l => lbraceC :: sObj l ++ [rbraceC]

/-- Comma-separated serialization of array elements. -/
def sArr : List J → List Char
  | [] => []
  | [x] => sV x
  | x :: y :: xs => sV x ++ ',' :: sArr (y :: xs)

/-- Comma-separated serialization of object fields. -/
def sObj : List (String × J) → List Char
  | [] => []
  | [(k, v)] => quoteC :: escStr k.data ++ quoteC :: ':' :: sV v
  | (k, v) :: y :: xs =>
      quoteC :: escStr k.data ++ quoteC :: ':' :: sV v ++ ',' :: sObj (y :: xs)
end

/-- String form of `JSON.stringify`. -/
def jsonStringify (v : J) : String := ⟨sV v⟩

/-- Skip inter-token JSON whitespace. -/
def skipWs : List Char → List Char
  | [] => []
  | c :: cs => if isJsonWs c then skipWs cs else c :: cs

/-- Maximal decimal-digit run at the front of the input. -/
def readDigits : List Char → List Char × List Char
  | [] => ([], [])
  | c :: cs =>
    if isDigitC c then
      let (ds, r) := readDigits cs
      (c :: ds, r)
    else ([], c :: cs)

/-- Body of a JSON string literal after the opening quote: the decoded
characters and the input after the closing quote.  Raw control characters
are rejected, as by `JSON.parse`. -/
def parseStrBody : List Char → Option (List Char × List Char)
  | [] => none
  | c :: cs =>
    if c = quoteC then some ([], cs)
    else if c = bslashC then
      match cs with
      | [] => none
      | e :: cs' =>
        if e = 'u' then
          match cs' with
          | a :: b :: c2 :: d :: rest =>
            match hexVal a, hexVal b, hexVal c2, hexVal d with
            | some ha, some hb, some hc, some hd =>
              (parseStrBody rest).map
                (fun p => (Char.ofNat (((ha * 16 + hb) * 16 + hc) * 16 + hd) :: p.1, p.2))
            | _, _, _, _ => none
          | _ => none
        else
          match
            (if e = quoteC then some quoteC
             else if e = bslashC then some bslashC
             else if e = '/' then some '/'
             else if e = 'b' then some bsC
             else if e = 'f' then some ffC
             else if e = 'n' then some '\n'
             else if e = 'r' then some '\r'
             else if e = 't' then some '\t'
             else none : Option Char) with
          | some d => (parseStrBody cs').map (fun p => (d :: p.1, p.2))
          | none => none
    else if c.toNat < 32 then none
    else (parseStrBody cs).map (fun p => (c :: p.1, p.2))

/-- Does the input begin with an exponent marker (unsupported here)? -/
def startsExp : List Char → Bool
  | [] => false
  | c :: _ => c = 'e' || c = 'E'

/-- JSON numeric literal at the front of the input.  An integer literal
becomes `J.num`; a literal with a fractional part is kept as its text
(`J.numF`); exponent notation is out of scope and fails. -/
def parseNum (s : List Char) : Option (J × List Char) :=
  let sg : Bool × List Char := match s with
    | c :: r => if c = '-' then (true, r) else (false, s)
    | [] => (false, s)
  let p := readDigits sg.2
  if p.1.isEmpty then none
  else if p.2.head? = some '.' then
    let q := readDigits p.2.tail
    if q.1.isEmpty then none
    else if startsExp q.2 then none
    else some (.numF ⟨(if sg.1 then ['-'] else []) ++ p.1 ++ '.' :: q.1⟩, q.2)
  else if startsExp p.2 then none
  else some (.num (if sg.1 then -(digitsToNat p.1 : Int) else (digitsToNat p.1 : Int)), p.2)

/-- Overwrite-or-append of an object field, as JS property assignment. -/
def setField : List (String × J) → String → J → List (String × J)
  | [], k, v => [(k, v)]
  | (k', v') :: rest, k, v =>
    if k' = k then (k', v) :: rest else (k', v') :: setField rest k v

/-- Fold of parsed object fields into a JS object: first-occurrence key
order, last occurrence of a duplicated key wins (as in `JSON.parse`). -/
def dedupFields (l : List (String × J)) : List (String × J) :=
  l.foldl (fun acc kv => setField acc kv.1 kv.2) []

mutual
/-- One JSON value at the front of the input (model of the core of
`JSON.parse`).  The fuel bounds recursion into subvalues; the top-level
entry point supplies more than enough. -/
def parseVal : Nat → List Char → Option (J × List Char)
  | 0, _ => none
  | fuel + 1, s =>
    match skipWs s with
    | [] => none
    | c :: r =>
      if c = 'n' then
        match r with
        | 'u' :: 'l' :: 'l' :: r' => some (.null, r')
        | _ => none
      else if c = 't' then
        match r with
        | 'r' :: 'u' :: 'e' :: r' => some (.bool true, r')
        | _ => none
      else if c = 'f' then
        match r with
        | 'a' :: 'l' :: 's' :: 'e' :: r' => some (.bool false, r')
        | _ => none
      else if c = quoteC then
        (parseStrBody r).map (fun p => (.str ⟨p.1⟩, p.2))
      else if c = '[' then
        (parseArrElems fuel r).map (fun p => (.arr p.1, p.2))
      else if c = lbraceC then
        (parseObjElems fuel r).map (fun p => (.obj (dedupFields p.1), p.2))
      else if c = '-' || isDigitC c then parseNum (c :: r)
      else none
termination_by structural fuel _ => fuel

/-- Element list of a JSON array after the opening bracket. -/
def parseArrElems : Nat → List Char → Option (List J × List Char)
  | 0, _ => none
  | fuel + 1, s =>
    let t := skipWs s
    if t.head? = some ']' then some ([], t.tail)
    else parseArrRest fuel t
termination_by structural fuel _ => fuel

/-- Nonempty element list of a JSON array: a value, then either a comma and
more elements or the closing bracket.  A trailing comma is rejected, as by
`JSON.parse`. -/
def parseArrRest : Nat → List Char → Option (List J × List Char)
  | 0, _ => none
  | fuel + 1, s => do
    let (v, r) ← parseVal fuel s
    let t := skipWs r
    if t.head? = some ',' then do
      let (l, r3) ← parseArrRest fuel t.tail
      some (v :: l, r3)
    else if t.head? = some ']' then some ([v], t.tail)
    else none
termination_by structural fuel _ => fuel

/-- Field list of a JSON object after the opening brace. -/
def parseObjElems : Nat → List Char → Option (List (String × J) × List Char)
  | 0, _ => none
  | fuel + 1, s =>
    let t := skipWs s
    if t.head? = some rbraceC then some ([], t.tail)
    else parseObjRest fuel t
termination_by structural fuel _ => fuel

/-- Nonempty field list of a JSON object: a quoted key, a colon, a value,
then either a comma and more fields or the closing brace. -/
def parseObjRest : Nat → List Char → Option (List (String × J) × List Char)
  | 0, _ => none
  | fuel + 1, s =>
    match skipWs s with
    | c :: r =>
      if c = quoteC then do
        let (k, r1) ← parseStrBody r
        let t2 := skipWs r1
        if t2.head? = some ':' then do
          let (v, r3) ← parseVal fuel t2.tail
          let t4 := skipWs r3
          if t4.head? = some ',' then do
            let (l, r5) ← parseObjRest fuel t4.tail
            some ((⟨k⟩, v) :: l, r5)
          else if t4.head? = some rbraceC then some ([(⟨k⟩, v)], t4.tail)
          else none
        else none
      else none
    | [] => none
termination_by structural fuel _ => fuel
end

/-- Model of `JSON.parse` on a whole string: one value, then only
whitespace to the end; anything else throws (is `Except.error`). -/
def jsonParseL (l : List Char) : Except Unit J :=
  match parseVal (2 * l.length + 2) l with
  | some (v, r) => if (skipWs r).isEmpty then .ok v else .error ()
  | none => .error ()

/-- String-level `JSON.parse`. -/
def jsonParse (s : String) : Except Unit J := jsonParseL s.data

/-- Keys of an object level are pairwise distinct. -/
def noDupKeys : List (String × J) → Bool
  | [] => true
  | (k, _) :: rest => !(rest.any (fun kv => kv.1 = k)) && noDupKeys rest

mutual
/-- A JS value is a well-formed JSON value for the round-trip statement:
no non-integer numeric literal and no duplicated object key (a JS object
cannot hold duplicated keys, so these are exactly the values
`JSON.stringify` is applied to in the repository). -/
def wfV : J → Bool
  | .null => true
  | .bool _ => true
  | .num _ => true
  | .numF _ => false
  | .nan => false
  | .str _ => true
  | .arr l => wfA l
  | .obj l => noDupKeys l && wfO l

/-- All array elements well formed. -/
def wfA : List J → Bool
  | [] => true
  | x :: xs => wfV x && wfA xs

/-- All object field values well formed. -/
def wfO : List (String × J) → Bool
  | [] => true
  | kv :: xs => wfV kv.2 && wfO xs
end

mutual
/-- Fuel bound sufficient for `parseVal` on the serialization of a value. -/
def sizeV : J → Nat
  | .arr l => 2 + sizeA l
  | .obj l => 2 + sizeO l
  | _ => 1

/-- Fuel bound for `parseArrRest` on serialized array elements. -/
def sizeA : List J → Nat
  | [] => 0
  | x :: xs => 1 + sizeV x + sizeA xs

/-- Fuel bound for `parseObjRest` on serialized object fields. -/
def sizeO : List (String × J) → Nat
  | [] => 0
  | kv :: xs => 1 + sizeV kv.2 + sizeO xs
end

/-- The character after a serialized value inside a serialization context:
nothing, or a separator that no numeral or literal continues into. -/
def delim : List Char → Prop
  | [] => True
  | c :: _ => c = ',' ∨ c = ']' ∨ c = rbraceC

theorem digitC_toNat (m : Nat) (h : m < 10) : (digitC m).toNat = 48 + m := by
  interval_cases m <;> decide

theorem isDigitC_digitC (m : Nat) (h : m < 10) : isDigitC (digitC m) = true := by
  interval_cases m <;> decide

theorem natDigitsAux_digits (fuel n : Nat) (h : n ≤ fuel) :
    ∀ c ∈ natDigitsAux fuel n, isDigitC c = true := by
  induction fuel generalizing n with
  | zero => simp [natDigitsAux]
  | succ f ih =>
    intro c hc
    simp only [natDigitsAux] at hc
    by_cases h0 : n = 0
    · simp [h0] at hc
    · rw [if_neg h0] at hc
      rcases List.mem_append.1 hc with h1 | h1
      · exact ih (n / 10) (by omega) c h1
      · simp at h1
        subst h1
        exact isDigitC_digitC _ (Nat.mod_lt _ (by norm_num))

theorem natChars_digits (n : Nat) : ∀ c ∈ natChars n, isDigitC c = true := by
  intro c hc
  simp only [natChars] at hc
  by_cases h0 : n = 0
  · simp [h0] at hc; subst hc; decide
  · rw [if_neg h0] at hc
    exact natDigitsAux_digits n n le_rfl c hc

theorem foldl_natDigitsAux (fuel n acc : Nat) (h : n ≤ fuel) :
    List.foldl (fun a c => a * 10 + (c.toNat - 48)) acc (natDigitsAux fuel n) =
      acc * 10 ^ (natDigitsAux fuel n).length + n := by
  induction fuel generalizing n acc with
  | zero =>
    have : n = 0 := by omega
    simp [natDigitsAux, this]
  | succ f ih =>
    by_cases h0 : n = 0
    · simp [natDigitsAux, h0]
    · simp only [natDigitsAux, if_neg h0]
      rw [List.foldl_append]
      rw [ih (n / 10) acc (by omega)]
      simp only [List.foldl_cons, List.foldl_nil, List.length_append, List.length_cons,
        List.length_nil]
      rw [digitC_toNat _ (Nat.mod_lt _ (by norm_num))]
      ring_nf
      omega

theorem digitsToNat_natChars (n : Nat) : digitsToNat (natChars n) = n := by
  simp only [digitsToNat, natChars]
  by_cases h0 : n = 0
  · simp [h0]
  · rw [if_neg h0]
    rw [foldl_natDigitsAux n n 0 le_rfl]
    simp

theorem readDigits_all (ds rest : List Char) (hd : ∀ c ∈ ds, isDigitC c = true)
    (hr : rest = [] ∨ ∃ c cs, rest = c :: cs ∧ isDigitC c = false) :
    readDigits (ds ++ rest) = (ds, rest) := by
  induction ds with
  | nil =>
    rcases hr with h | ⟨c, cs, rfl, hc⟩
    · simp [h, readDigits]
    · simp [readDigits, hc]
  | cons c cs ih =>
    have hc : isDigitC c = true := hd c (by simp)
    simp only [List.cons_append, readDigits, hc, if_true]
    have h2 := ih (fun x hx => hd x (by simp [hx]))
    rw [show cs.append rest = cs ++ rest from rfl, h2]

theorem natChars_ne_nil (n : Nat) : natChars n ≠ [] := by
  simp only [natChars]
  by_cases h0 : n = 0
  · simp [h0]
  · rw [if_neg h0]
    match n, h0 with
    | n + 1, _ =>
      simp only [natDigitsAux]
      split
      · omega
      · simp

theorem delim_not_digit (rest : List Char) (h : delim rest) :
    rest = [] ∨ ∃ c cs, rest = c :: cs ∧ isDigitC c = false := by
  match rest with
  | [] => exact Or.inl rfl
  | c :: cs =>
    refine Or.inr ⟨c, cs, rfl, ?_⟩
    rcases h with h | h | h <;> subst h <;> decide

theorem delim_head_ne (rest : List Char) (h : delim rest) (c : Char)
    (hc : ¬ (c = ',' ∨ c = ']' ∨ c = rbraceC)) : rest.head? ≠ some c := by
  match rest with
  | [] => simp
  | d :: ds =>
    simp only [List.head?_cons, ne_eq, Option.some.injEq]
    rintro rfl
    exact hc h

theorem delim_startsExp (rest : List Char) (h : delim rest) : startsExp rest = false := by
  match rest with
  | [] => rfl
  | c :: cs => rcases h with h | h | h <;> subst h <;> rfl

theorem parseNum_natChars (n : Nat) (rest : List Char) (h : delim rest) :
    parseNum (natChars n ++ rest) = some (.num n, rest) := by
  have hne := natChars_ne_nil n
  obtain ⟨d, ds, hds⟩ : ∃ d ds, natChars n = d :: ds := by
    match hh : natChars n, hne with
    | d :: ds, _ => exact ⟨d, ds, rfl⟩
  have hdig := natChars_digits n
  have hd : isDigitC d = true := hdig d (by rw [hds]; simp)
  have hdm : ¬ d = '-' := by
    intro heq
    rw [heq] at hd
    simp [isDigitC] at hd
  have hrd : readDigits (natChars n ++ rest) = (natChars n, rest) :=
    readDigits_all _ _ hdig (delim_not_digit rest h)
  rw [hds] at hrd
  simp only [List.cons_append] at hrd
  simp only [hds, List.cons_append, parseNum, if_neg hdm]
  rw [hrd]
  rw [if_neg (by simp : ¬ (d :: ds).isEmpty = true)]
  rw [if_neg (delim_head_ne rest h '.' (by decide))]
  rw [delim_startsExp rest h]
  simp only [Bool.false_eq_true, if_false, if_neg]
  rw [← hds, digitsToNat_natChars]

theorem parseNum_intChars (n : Int) (rest : List Char) (h : delim rest) :
    parseNum (intChars n ++ rest) = some (.num n, rest) := by
  by_cases hn : n < 0
  · have hrd : readDigits (natChars n.natAbs ++ rest) = (natChars n.natAbs, rest) :=
      readDigits_all _ _ (natChars_digits _) (delim_not_digit rest h)
    obtain ⟨d, ds, hds⟩ : ∃ d ds, natChars n.natAbs = d :: ds := by
      match hh : natChars n.natAbs, natChars_ne_nil n.natAbs with
      | d :: ds, _ => exact ⟨d, ds, rfl⟩
    rw [hds] at hrd
    simp only [List.cons_append] at hrd
    simp only [intChars, if_pos hn, List.cons_append, parseNum, if_pos rfl, hds, if_true]
    rw [hrd]
    rw [if_neg (by simp : ¬ (d :: ds).isEmpty = true)]
    rw [if_neg (delim_head_ne rest h '.' (by decide))]
    rw [delim_startsExp rest h]
    simp only [Bool.false_eq_true, if_false, if_true]
    rw [← hds, digitsToNat_natChars]
    have hval : (-(n.natAbs : Int)) = n := by omega
    rw [hval]
  · simp only [intChars, if_neg hn]
    rw [parseNum_natChars n.natAbs rest h]
    have hval : ((n.natAbs : Int)) = n := by omega
    rw [hval]

theorem hexVal_hexC (m : Nat) (h : m < 16) : hexVal (hexC m) = some m := by
  interval_cases m <;> decide



theorem hexVal_hexC2 (m : Nat) (h : m < 16) : hexVal (hexC m) = some m := by
  interval_cases m <;> decide

theorem parseStrBody_esc (l rest : List Char) :
    parseStrBody (escStr l ++ quoteC :: rest) = some (l, rest) := by
  induction l with
  | nil =>
    show parseStrBody (quoteC :: rest) = some ([], rest)
    rw [parseStrBody.eq_def]
    simp
  | cons c cs ih =>
    rw [show escStr (c :: cs) = escChar c ++ escStr cs from by simp [escStr],
      List.append_assoc]
    by_cases h1 : c = quoteC
    · subst h1
      simp only [escChar, if_pos rfl, List.cons_append, List.nil_append]
      rw [parseStrBody.eq_def]
      simp [ih, (by decide : (bslashC = quoteC) = False),
        (by decide : (quoteC = 'u') = False)]
    · by_cases h2 : c = bslashC
      · subst h2
        simp only [escChar, if_neg h1, if_pos rfl, List.cons_append, List.nil_append]
        rw [parseStrBody.eq_def]
        simp [ih, (by decide : (bslashC = quoteC) = False),
          (by decide : (bslashC = 'u') = False)]
      · by_cases h3 : c = bsC
        · subst h3
          simp only [escChar, if_neg h1, if_neg h2, if_pos rfl, List.cons_append,
            List.nil_append]
          rw [parseStrBody.eq_def]
          simp [ih, (by decide : (bslashC = quoteC) = False),
            (by decide : ('b' = 'u') = False),
            (by decide : ('b' = quoteC) = False),
            (by decide : ('b' = bslashC) = False),
            (by decide : ('b' = '/') = False)]
        · by_cases h4 : c = ffC
          · subst h4
            simp only [escChar, if_neg h1, if_neg h2, if_neg h3, if_pos rfl,
              List.cons_append, List.nil_append]
            rw [parseStrBody.eq_def]
            simp [ih, (by decide : (bslashC = quoteC) = False),
              (by decide : ('f' = 'u') = False),
              (by decide : ('f' = quoteC) = False),
              (by decide : ('f' = bslashC) = False),
              (by decide : ('f' = '/') = False),
              (by decide : ('f' = 'b') = False)]
          · by_cases h5 : c = '\n'
            · subst h5
              simp only [escChar, if_neg h1, if_neg h2, if_neg h3, if_neg h4, if_pos rfl,
                List.cons_append, List.nil_append]
              rw [parseStrBody.eq_def]
              simp [ih, (by decide : (bslashC = quoteC) = False),
                (by decide : ('n' = 'u') = False),
                (by decide : ('n' = quoteC) = False),
                (by decide : ('n' = bslashC) = False),
                (by decide : ('n' = '/') = False),
                (by decide : ('n' = 'b') = False),
                (by decide : ('n' = 'f') = False)]
            · by_cases h6 : c = '\r'
              · subst h6
                simp only [escChar, if_neg h1, if_neg h2, if_neg h3, if_neg h4, if_neg h5,
                  if_pos rfl, List.cons_append, List.nil_append]
                rw [parseStrBody.eq_def]
                simp [ih, (by decide : (bslashC = quoteC) = False),
                  (by decide : ('r' = 'u') = False),
                  (by decide : ('r' = quoteC) = False),
                  (by decide : ('r' = bslashC) = False),
                  (by decide : ('r' = '/') = False),
                  (by decide : ('r' = 'b') = False),
                  (by decide : ('r' = 'f') = False),
                  (by decide : ('r' = 'n') = False)]
              · by_cases h7 : c = '\t'
                · subst h7
                  simp only [escChar, if_neg h1, if_neg h2, if_neg h3, if_neg h4, if_neg h5,
                    if_neg h6, if_pos rfl, List.cons_append, List.nil_append]
                  rw [parseStrBody.eq_def]
                  simp [ih, (by decide : (bslashC = quoteC) = False),
                    (by decide : ('t' = 'u') = False),
                    (by decide : ('t' = quoteC) = False),
                    (by decide : ('t' = bslashC) = False),
                    (by decide : ('t' = '/') = False),
                    (by decide : ('t' = 'b') = False),
                    (by decide : ('t' = 'f') = False),
                    (by decide : ('t' = 'n') = False),
                    (by decide : ('t' = 'r') = False)]
                · by_cases h8 : c.toNat < 32
                  · simp only [escChar, if_neg h1, if_neg h2, if_neg h3, if_neg h4,
                      if_neg h5, if_neg h6, if_neg h7, if_pos h8, List.cons_append,
                      List.nil_append]
                    rw [parseStrBody.eq_def]
                    simp only [if_neg (by decide : ¬ bslashC = quoteC),
                      if_pos (rfl : bslashC = bslashC), if_pos (rfl : 'u' = 'u'),
                      (by decide : hexVal '0' = some 0),
                      hexVal_hexC2 (c.toNat / 16) (by omega),
                      hexVal_hexC2 (c.toNat % 16) (by omega)]
                    rw [ih]
                    have harith : c.toNat / 16 * 16 + c.toNat % 16 = c.toNat := by omega
                    simp [harith, Char.ofNat_toNat]
                  · simp only [escChar, if_neg h1, if_neg h2, if_neg h3, if_neg h4,
                      if_neg h5, if_neg h6, if_neg h7, if_neg h8, List.cons_append,
                      List.nil_append]
                    rw [parseStrBody.eq_def]
                    simp only [if_neg h1, if_neg h2, if_neg h8]
                    rw [ih]
                    rfl

theorem skipWs_cons (c : Char) (cs : List Char) (h : isJsonWs c = false) :
    skipWs (c :: cs) = c :: cs := by
  rw [skipWs.eq_def]
  simp [h]

theorem intChars_shape (n : Int) :
    ∃ d ds, intChars n = d :: ds ∧ (d = '-' ∨ isDigitC d = true) := by
  simp only [intChars]
  by_cases hn : n < 0
  · exact ⟨'-', natChars n.natAbs, by rw [if_pos hn], Or.inl rfl⟩
  · rw [if_neg hn]
    obtain ⟨d, ds, hds⟩ : ∃ d ds, natChars n.natAbs = d :: ds := by
      match hh : natChars n.natAbs, natChars_ne_nil n.natAbs with
      | d :: ds, _ => exact ⟨d, ds, rfl⟩
    exact ⟨d, ds, hds, Or.inr (natChars_digits _ d (by rw [hds]; simp))⟩

theorem numHead_facts (d : Char) (h : d = '-' ∨ isDigitC d = true) :
    isJsonWs d = false ∧ ¬ d = 'n' ∧ ¬ d = 't' ∧ ¬ d = 'f' ∧ ¬ d = quoteC ∧
      ¬ d = '[' ∧ ¬ d = lbraceC ∧ (d = '-' || isDigitC d) = true := by
  rcases h with h | h
  · subst h
    refine ⟨by decide, by decide, by decide, by decide, by decide, by decide, by decide, by simp⟩
  · have hne : ∀ x : Char, isDigitC x = false → ¬ d = x := by
      intro x hx he
      rw [he] at h
      rw [h] at hx
      simp at hx
    refine ⟨?_, hne 'n' (by decide), hne 't' (by decide), hne 'f' (by decide),
      hne quoteC (by decide), hne '[' (by decide), hne lbraceC (by decide), by simp [h]⟩
    have h1 := hne ' ' (by decide)
    have h2 := hne '\t' (by decide)
    have h3 := hne '\n' (by decide)
    have h4 := hne '\r' (by decide)
    simp [isJsonWs, h1, h2, h3, h4]

theorem setField_append (acc : List (String × J)) (k : String) (v : J)
    (h : ∀ kv ∈ acc, kv.1 ≠ k) : setField acc k v = acc ++ [(k, v)] := by
  induction acc with
  | nil => simp [setField]
  | cons kv rest ih =>
    have hk : kv.1 ≠ k := h kv (by simp)
    simp only [setField, if_neg hk, List.cons_append]
    rw [ih (fun x hx => h x (by simp [hx]))]

theorem foldl_setField (l acc : List (String × J))
    (hdisj : ∀ kv ∈ l, ∀ kv' ∈ acc, kv'.1 ≠ kv.1)
    (hnd : noDupKeys l = true) :
    l.foldl (fun a kv => setField a kv.1 kv.2) acc = acc ++ l := by
  induction l generalizing acc with
  | nil => simp
  | cons kv rest ih =>
    simp only [List.foldl_cons]
    rw [setField_append acc kv.1 kv.2 (fun x hx => hdisj kv (by simp) x hx)]
    simp only [noDupKeys, Bool.and_eq_true, Bool.not_eq_true'] at hnd
    rw [ih (acc ++ [(kv.1, kv.2)]) ?_ hnd.2]
    · simp
    · intro x hx y hy
      rcases List.mem_append.1 hy with hy | hy
      · exact hdisj x (by simp [hx]) y hy
      · simp at hy
        rw [hy]
        intro he
        have : rest.any (fun kv2 => kv2.1 = kv.1) = true := by
          refine List.any_eq_true.2 ⟨x, hx, ?_⟩
          simp [he]
        rw [this] at hnd
        exact absurd hnd.1 (by simp)

theorem dedupFields_nodup (l : List (String × J)) (h : noDupKeys l = true) :
    dedupFields l = l := by
  simp only [dedupFields]
  rw [foldl_setField l [] (by simp) h]
  simp

mutual
theorem sizeV_le (v : J) (h : wfV v = true) : sizeV v ≤ 2 * (sV v).length := by
  match v, h with
  | .null, _ => simp [sizeV, sV]
  | .bool true, _ => simp [sizeV, sV]
  | .bool false, _ => simp [sizeV, sV]
  | .num n, _ =>
    have := natChars_ne_nil n.natAbs
    simp only [sizeV, sV, intChars]
    split
    · simp only [List.length_cons]
      omega
    · have : (natChars n.natAbs).length ≥ 1 := by
        match hh : natChars n.natAbs, natChars_ne_nil n.natAbs with
        | d :: ds, _ => simp
      omega
  | .str s, _ => simp only [sizeV, sV, List.length_cons, List.length_append]; omega
  | .arr l, h =>
    have hb := sizeA_le l (by simpa [wfV] using h)
    simp only [sizeV, sV, List.length_cons, List.length_append, List.length_cons]
    omega
  | .obj l, h =>
    have hb := sizeO_le l (by
      simp only [wfV, Bool.and_eq_true] at h
      exact h.2)
    simp only [sizeV, sV, List.length_cons, List.length_append, List.length_cons]
    omega

theorem sizeA_le (l : List J) (h : wfA l = true) : sizeA l ≤ 2 * (sArr l).length + 1 := by
  match l, h with
  | [], _ => simp [sizeA, sArr]
  | [x], h =>
    have hx := sizeV_le x (by simpa [wfA] using h)
    simp only [sizeA, sizeA, sArr]
    omega
  | x :: y :: xs, h =>
    simp only [wfA, Bool.and_eq_true] at h
    have hx := sizeV_le x h.1
    have hrest := sizeA_le (y :: xs) (by
      simp only [wfA, Bool.and_eq_true]
      exact ⟨h.2.1, h.2.2⟩)
    have hd : sizeA (y :: xs) = 1 + sizeV y + sizeA xs := by simp [sizeA]
    rw [hd] at hrest
    simp only [sizeA, sArr, List.length_append, List.length_cons]
    omega

theorem sizeO_le (l : List (String × J)) (h : wfO l = true) :
    sizeO l ≤ 2 * (sObj l).length + 1 := by
  match l, h with
  | [], _ => simp [sizeO, sObj]
  | [(k, v)], h =>
    have hx := sizeV_le v (by simpa [wfO] using h)
    simp only [sizeO, sizeO, sObj, List.length_cons, List.length_append]
    omega
  | (k, v) :: y :: xs, h =>
    simp only [wfO, Bool.and_eq_true] at h
    have hx := sizeV_le v h.1
    have hrest := sizeO_le (y :: xs) (by
      simp only [wfO, Bool.and_eq_true]
      exact ⟨h.2.1, h.2.2⟩)
    have hd : sizeO (y :: xs) = 1 + sizeV y.2 + sizeO xs := by simp [sizeO]
    rw [hd] at hrest
    simp only [sizeO, sObj, List.length_append, List.length_cons]
    omega
end

theorem sV_head (v : J) (h : wfV v = true) :
    ∃ c cs, sV v = c :: cs ∧ isJsonWs c = false ∧ ¬ c = ']' ∧ ¬ c = rbraceC := by
  match v, h with
  | .null, _ => exact ⟨'n', _, rfl, by decide, by decide, by decide⟩
  | .bool true, _ => exact ⟨'t', _, rfl, by decide, by decide, by decide⟩
  | .bool false, _ => exact ⟨'f', _, rfl, by decide, by decide, by decide⟩
  | .num n, _ =>
    obtain ⟨d, ds, hds, hdig⟩ := intChars_shape n
    refine ⟨d, ds, by simp only [sV]; exact hds, ?_, ?_, ?_⟩
    · exact (numHead_facts d hdig).1
    · rcases hdig with h | h
      · subst h; decide
      · intro he; rw [he] at h; exact absurd h (by decide)
    · rcases hdig with h | h
      · subst h; decide
      · intro he; rw [he] at h; exact absurd h (by decide)
  | .str s, _ => exact ⟨quoteC, _, rfl, by decide, by decide, by decide⟩
  | .nan, h => exact absurd h (by simp [wfV])
  | .arr l, _ => exact ⟨'[', _, rfl, by decide, by decide, by decide⟩
  | .obj l, _ => exact ⟨lbraceC, _, rfl, by decide, by decide, by decide⟩

mutual
theorem rtV (v : J) (f : Nat) (rest : List Char) (hwf : wfV v = true)
    (hsz : sizeV v ≤ f) (hd : delim rest) :
    parseVal f (sV v ++ rest) = some (v, rest) := by
  match v, hwf with
  | .null, _ =>
    simp only [sizeV] at hsz
    obtain ⟨f1, rfl⟩ : ∃ f1, f = f1 + 1 := ⟨f - 1, by omega⟩
    rw [parseVal.eq_def]
    simp only [sV, List.cons_append, List.nil_append]
    rw [skipWs_cons _ _ (by decide)]
    simp
  | .bool true, _ =>
    simp only [sizeV] at hsz
    obtain ⟨f1, rfl⟩ : ∃ f1, f = f1 + 1 := ⟨f - 1, by omega⟩
    rw [parseVal.eq_def]
    simp only [sV, List.cons_append, List.nil_append]
    rw [skipWs_cons _ _ (by decide)]
    simp [(by decide : ('t' = 'n') = False)]
  | .bool false, _ =>
    simp only [sizeV] at hsz
    obtain ⟨f1, rfl⟩ : ∃ f1, f = f1 + 1 := ⟨f - 1, by omega⟩
    rw [parseVal.eq_def]
    simp only [sV, List.cons_append, List.nil_append]
    rw [skipWs_cons _ _ (by decide)]
    simp [(by decide : ('f' = 'n') = False), (by decide : ('f' = 't') = False)]
  | .num n, _ =>
    simp only [sizeV] at hsz
    obtain ⟨f1, rfl⟩ : ∃ f1, f = f1 + 1 := ⟨f - 1, by omega⟩
    obtain ⟨d, ds, hds, hdig⟩ := intChars_shape n
    obtain ⟨hws, hn, ht, hf, hq, hbr, hbc, hnum⟩ := numHead_facts d hdig
    rw [parseVal.eq_def]
    simp only [sV]
    rw [hds]
    simp only [List.cons_append]
    rw [skipWs_cons _ _ hws]
    simp only [if_neg hn, if_neg ht, if_neg hf, if_neg hq, if_neg hbr, if_neg hbc, hnum,
      if_true]
    rw [← List.cons_append, ← hds]
    exact parseNum_intChars n rest hd
  | .numF lit, hwf => exact absurd hwf (by simp [wfV])
  | .nan, hwf => exact absurd hwf (by simp [wfV])
  | .str s, _ =>
    simp only [sizeV] at hsz
    obtain ⟨f1, rfl⟩ : ∃ f1, f = f1 + 1 := ⟨f - 1, by omega⟩
    rw [parseVal.eq_def]
    simp only [sV, List.cons_append, List.append_assoc, List.singleton_append,
      List.nil_append]
    rw [skipWs_cons _ _ (by decide)]
    simp only [if_neg (by decide : ¬ quoteC = 'n'), if_neg (by decide : ¬ quoteC = 't'),
      if_neg (by decide : ¬ quoteC = 'f'), if_pos (rfl : quoteC = quoteC)]
    rw [parseStrBody_esc]
    rfl
  | .arr l, hwf =>
    have hwl : wfA l = true := by simpa [wfV] using hwf
    simp only [sizeV] at hsz
    obtain ⟨f1, rfl⟩ : ∃ f1, f = f1 + 1 := ⟨f - 1, by omega⟩
    suffices harr : (parseArrElems f1 (sArr l ++ ']' :: rest)).map
        (fun p => (J.arr p.1, p.2)) = some (J.arr l, rest) by
      rw [parseVal.eq_def]
      simp only [sV, List.cons_append, List.append_assoc, List.singleton_append,
        List.nil_append]
      rw [skipWs_cons _ _ (by decide)]
      simp only [if_neg (by decide : ¬ '[' = 'n'), if_neg (by decide : ¬ '[' = 't'),
        if_neg (by decide : ¬ '[' = 'f'), if_neg (by decide : ¬ '[' = quoteC),
        if_pos (rfl : '[' = '[')]
      exact harr
    obtain ⟨f2, rfl⟩ : ∃ f2, f1 = f2 + 1 := ⟨f1 - 1, by omega⟩
    rw [parseArrElems.eq_def]
    match l, hwl, hsz with
    | [], _, _ =>
      simp only [sArr, List.nil_append]
      rw [skipWs_cons _ _ (by decide)]
      simp
    | x :: xs, hwl, hsz =>
      have hwx : wfV x = true ∧ wfA xs = true := by simpa [wfA] using hwl
      obtain ⟨c0, cs0, hc0, hws0, hne0, _⟩ := sV_head x hwx.1
      obtain ⟨T, hT⟩ : ∃ T, sArr (x :: xs) = sV x ++ T := by
        cases xs with
        | nil => exact ⟨[], by simp [sArr]⟩
        | cons y ys => exact ⟨',' :: sArr (y :: ys), by simp [sArr]⟩
      rw [hT, hc0]
      simp only [List.cons_append, List.append_assoc]
      rw [skipWs_cons _ _ hws0]
      rw [if_neg (show ¬ (c0 :: (cs0 ++ (T ++ ']' :: rest))).head? = some ']' by
        simp [hne0])]
      rw [show c0 :: (cs0 ++ (T ++ ']' :: rest)) = sArr (x :: xs) ++ ']' :: rest from by
        rw [hT, hc0]; simp [List.append_assoc]]
      rw [rtA (x :: xs) f2 rest (by simp) hwl (by
        have hx : sizeA (x :: xs) = 1 + sizeV x + sizeA xs := by simp [sizeA]
        omega) hd]
      rfl
  | .obj l, hwf =>
    have hwl : noDupKeys l = true ∧ wfO l = true := by
      simpa [wfV, Bool.and_eq_true] using hwf
    simp only [sizeV] at hsz
    obtain ⟨f1, rfl⟩ : ∃ f1, f = f1 + 1 := ⟨f - 1, by omega⟩
    suffices hobj : (parseObjElems f1 (sObj l ++ rbraceC :: rest)).map
        (fun p => (J.obj (dedupFields p.1), p.2)) = some (J.obj l, rest) by
      rw [parseVal.eq_def]
      simp only [sV, List.cons_append, List.append_assoc, List.singleton_append,
        List.nil_append]
      rw [skipWs_cons _ _ (by decide)]
      simp only [if_neg (by decide : ¬ lbraceC = 'n'), if_neg (by decide : ¬ lbraceC = 't'),
        if_neg (by decide : ¬ lbraceC = 'f'), if_neg (by decide : ¬ lbraceC = quoteC),
        if_neg (by decide : ¬ lbraceC = '['), if_pos (rfl : lbraceC = lbraceC)]
      exact hobj
    obtain ⟨f2, rfl⟩ : ∃ f2, f1 = f2 + 1 := ⟨f1 - 1, by omega⟩
    rw [parseObjElems.eq_def]
    match l, hwl, hsz with
    | [], _, _ =>
      simp only [sObj, List.nil_append]
      rw [skipWs_cons _ _ (by decide)]
      simp [dedupFields]
    | (k, v) :: xs, hwl, hsz =>
      obtain ⟨T, hT⟩ : ∃ T, sObj ((k, v) :: xs) =
            quoteC :: (escStr k.data ++ quoteC :: ':' :: sV v ++ T) := by
        cases xs with
        | nil => exact ⟨[], by simp [sObj]⟩
        | cons y ys => exact ⟨',' :: sObj (y :: ys), by simp [sObj, List.append_assoc]⟩
      rw [hT]
      simp only [List.cons_append, List.append_assoc]
      rw [skipWs_cons _ _ (by decide)]
      rw [if_neg (show ¬ (quoteC :: (escStr k.data ++ (quoteC :: (':' :: (sV v ++
            (T ++ (rbraceC :: rest))))))).head? = some rbraceC by
        simp [(by decide : (quoteC = rbraceC) = False)])]
      rw [show quoteC :: (escStr k.data ++ (quoteC :: (':' :: (sV v ++
            (T ++ (rbraceC :: rest)))))) = sObj ((k, v) :: xs) ++ rbraceC :: rest from by
        rw [hT]; simp [List.append_assoc]]
      rw [rtO ((k, v) :: xs) f2 rest (by simp) hwl.2 (by
        have hx : sizeO ((k, v) :: xs) = 1 + sizeV v + sizeO xs := by simp [sizeO]
        omega) hd]
      simp only [Option.map_some']
      rw [dedupFields_nodup _ hwl.1]

theorem rtA (l : List J) (f : Nat) (rest : List Char) (hne : l ≠ [])
    (hwf : wfA l = true) (hsz : sizeA l ≤ f) (hd : delim rest) :
    parseArrRest f (sArr l ++ ']' :: rest) = some (l, rest) := by
  match l, hne, hwf with
  | x :: xs, _, hwf =>
    have hwx : wfV x = true ∧ wfA xs = true := by simpa [wfA] using hwf
    have hsx : sizeA (x :: xs) = 1 + sizeV x + sizeA xs := by simp [sizeA]
    rw [hsx] at hsz
    obtain ⟨g, rfl⟩ : ∃ g, f = g + 1 := ⟨f - 1, by omega⟩
    rw [parseArrRest.eq_def]
    match xs, hwx, hsz with
    | [], hwx, hsz =>
      simp only [sArr]
      rw [rtV x g (']' :: rest) hwx.1 (by omega) (by simp [delim])]
      simp only [Option.bind_eq_bind, Option.some_bind]
      rw [skipWs_cons _ _ (by decide)]
      simp
    | y :: ys, hwx, hsz =>
      simp only [sArr, List.append_assoc, List.cons_append]
      rw [rtV x g (',' :: (sArr (y :: ys) ++ ']' :: rest)) hwx.1 (by omega)
        (by simp [delim])]
      simp only [Option.bind_eq_bind, Option.some_bind]
      rw [skipWs_cons _ _ (by decide)]
      simp only [List.head?_cons, List.tail_cons, Option.some.injEq,
        if_pos (rfl : (',' : Char) = ',')]
      rw [rtA (y :: ys) g rest (by simp) hwx.2 (by
        have hy : sizeA (y :: ys) = 1 + sizeV y + sizeA ys := by simp [sizeA]
        omega) hd]
      rfl

theorem rtO (l : List (String × J)) (f : Nat) (rest : List Char) (hne : l ≠ [])
    (hwf : wfO l = true) (hsz : sizeO l ≤ f) (hd : delim rest) :
    parseObjRest f (sObj l ++ rbraceC :: rest) = some (l, rest) := by
  match l, hne, hwf with
  | (k, v) :: xs, _, hwf =>
    have hwx : wfV v = true ∧ wfO xs = true := by simpa [wfO] using hwf
    have hsx : sizeO ((k, v) :: xs) = 1 + sizeV v + sizeO xs := by simp [sizeO]
    rw [hsx] at hsz
    obtain ⟨g, rfl⟩ : ∃ g, f = g + 1 := ⟨f - 1, by omega⟩
    rw [parseObjRest.eq_def]
    match xs, hwx, hsz with
    | [], hwx, hsz =>
      simp only [sObj, List.cons_append, List.append_assoc]
      rw [skipWs_cons _ _ (by decide)]
      simp only [if_pos (rfl : quoteC = quoteC)]
      rw [parseStrBody_esc]
      simp only [Option.bind_eq_bind, Option.some_bind]
      rw [skipWs_cons _ _ (by decide)]
      simp only [List.head?_cons, List.tail_cons, if_pos (rfl : (':' : Char) = ':')]
      rw [rtV v g (rbraceC :: rest) hwx.1 (by omega) (by simp [delim])]
      simp only [Option.bind_eq_bind, Option.some_bind]
      rw [skipWs_cons _ _ (by decide)]
      simp only [List.head?_cons, List.tail_cons]
      simp
      intro hcon
      exact absurd hcon (by decide)
    | y :: ys, hwx, hsz =>
      simp only [sObj, List.cons_append, List.append_assoc]
      rw [skipWs_cons _ _ (by decide)]
      simp only [if_pos (rfl : quoteC = quoteC)]
      rw [parseStrBody_esc]
      simp only [Option.bind_eq_bind, Option.some_bind]
      rw [skipWs_cons _ _ (by decide)]
      simp only [List.head?_cons, List.tail_cons, if_pos (rfl : (':' : Char) = ':')]
      rw [rtV v g (',' :: (sObj (y :: ys) ++ rbraceC :: rest)) hwx.1 (by omega)
        (by simp [delim])]
      simp only [Option.bind_eq_bind, Option.some_bind]
      rw [skipWs_cons _ _ (by decide)]
      simp only [List.head?_cons, List.tail_cons, if_pos (rfl : (',' : Char) = ',')]
      rw [rtO (y :: ys) g rest (by simp) hwx.2 (by
        have hy : sizeO (y :: ys) = 1 + sizeV y.2 + sizeO ys := by simp [sizeO]
        omega) hd]
      rfl
end

theorem jsonParse_stringify (v : J) (h : wfV v = true) :
    jsonParse (jsonStringify v) = .ok v := by
  simp only [jsonParse, jsonStringify, jsonParseL]
  have hs := sizeV_le v h
  have hrt := rtV v (2 * (sV v).length + 2) [] h (by omega) trivial
  rw [show sV v ++ ([] : List Char) = sV v from by simp] at hrt
  rw [hrt]
  simp [skipWs]

/-!
Model of `fixCommonJSONIssues` (src/server/utils/jsonParser.js, lines
4-43).  Each regex replacement is a left-to-right, non-overlapping scan,
modelled by one scanner below in the same order as the source.  Scanners
whose continuation skips more than the head character take fuel; the
callers always supply `length + 1`, which each scan step strictly exceeds.
-/

/-- Identifier-start class of the unquoted-key regex. -/
def isIdentStart (c : Char) : Bool := c.isAlpha || c = '_'

/-- Identifier-continuation class of the unquoted-key regex. -/
def isIdentChar (c : Char) : Bool := c.isAlpha || c.isDigit || c = '_'

/-- The three-backtick fence marker. -/
def fenceMark : List Char := [btickC, btickC, btickC]

/-- Step 1: remove every fence marker directly followed by the word json
and trailing whitespace. -/
def replFenceJson : Nat → List Char → List Char
  | 0, s => s
  | fuel + 1, s =>
    match s with
    | [] => []
    | c :: cs =>
      if (fenceMark ++ ['j', 's', 'o', 'n']).isPrefixOf s then
        replFenceJson fuel ((s.drop 7).dropWhile isReWs)
      else c :: replFenceJson fuel cs

/-- Step 2: remove a fence marker that is followed only by whitespace up
to the end of the string (the regex is anchored at the end). -/
def replFenceEnd : List Char → List Char
  | [] => []
  | c :: cs =>
    if fenceMark.isPrefixOf (c :: cs) && ((c :: cs).drop 3).all isReWs then []
    else c :: replFenceEnd cs

/-- Step 3: remove single-line comments, from a double slash to the end of
its line (the newline itself is kept, as the dot class excludes it). -/
def replLineComments : Nat → List Char → List Char
  | 0, s => s
  | fuel + 1, s =>
    match s with
    | [] => []
    | '/' :: '/' :: rest => replLineComments fuel (rest.dropWhile (fun c => !(c = '\n')))
    | c :: cs => c :: replLineComments fuel cs

/-- The input after the nearest block-comment closer, when one exists. -/
def findBlockClose : List Char → Option (List Char)
  | [] => none
  | '*' :: '/' :: r => some r
  | _ :: cs => findBlockClose cs

/-- Step 4: remove lazily-matched block comments; an unclosed opener is
left in place, as the regex then has no match. -/
def replBlockComments : Nat → List Char → List Char
  | 0, s => s
  | fuel + 1, s =>
    match s with
    | [] => []
    | '/' :: '*' :: rest =>
      match findBlockClose rest with
      | some r => replBlockComments fuel r
      | none => '/' :: '*' :: rest
    | c :: cs => c :: replBlockComments fuel cs

/-- Step 5: quote bare identifier keys that follow a comma or an opening
brace (possibly with whitespace) and are followed by a colon; the
whitespace before the colon is dropped, as in the replacement text. -/
def replUnquotedKeys : Nat → List Char → List Char
  | 0, s => s
  | fuel + 1, s =>
    match s with
    | [] => []
    | c :: cs =>
      if c = ',' || c = lbraceC then
        let ws := cs.takeWhile isReWs
        let r1 := cs.dropWhile isReWs
        match r1 with
        | h :: _ =>
          if isIdentStart h then
            let idt := r1.takeWhile isIdentChar
            let r2 := r1.dropWhile isIdentChar
            let r3 := r2.dropWhile isReWs
            match r3 with
            | ':' :: r4 =>
              c :: ws ++ quoteC :: idt ++ quoteC :: ':' :: replUnquotedKeys fuel r4
            | _ => c :: replUnquotedKeys fuel cs
          else c :: replUnquotedKeys fuel cs
        | [] => c :: replUnquotedKeys fuel cs
      else c :: replUnquotedKeys fuel cs

/-- Input split at the first occurrence of a character: the part before it
and the part after it. -/
def splitAtChar (t : Char) : List Char → Option (List Char × List Char)
  | [] => none
  | c :: cs =>
    if c = t then some ([], cs)
    else (splitAtChar t cs).map (fun p => (c :: p.1, p.2))

/-- Step 6: convert a single-quoted value after a colon into a
double-quoted one (the replacement normalizes the gap to one space). -/
def replSingleQuoted : Nat → List Char → List Char
  | 0, s => s
  | fuel + 1, s =>
    match s with
    | [] => []
    | c :: cs =>
      if c = ':' then
        match cs.dropWhile isReWs with
        | q :: r2 =>
          if q = squoteC then
            match splitAtChar squoteC r2 with
            | some (content, after) =>
              ':' :: ' ' :: quoteC :: content ++ quoteC :: replSingleQuoted fuel after
            | none => c :: replSingleQuoted fuel cs
          else c :: replSingleQuoted fuel cs
        | [] => c :: replSingleQuoted fuel cs
      else c :: replSingleQuoted fuel cs

/-- Steps 7, 11 and 12: drop a comma that is followed (after whitespace)
by one of the given closing characters. -/
def replTrailingComma (closers : List Char) : Nat → List Char → List Char
  | 0, s => s
  | fuel + 1, s =>
    match s with
    | [] => []
    | c :: cs =>
      if c = ',' then
        let ws := cs.takeWhile isReWs
        match cs.dropWhile isReWs with
        | b :: r2 =>
          if closers.contains b then ws ++ b :: replTrailingComma closers fuel r2
          else c :: replTrailingComma closers fuel cs
        | [] => c :: replTrailingComma closers fuel cs
      else c :: replTrailingComma closers fuel cs

/-- Steps 8, 9 and 10: insert a comma between two adjacent tokens that are
separated by whitespace containing a newline (the replacement normalizes
the gap to one newline). -/
def replAdjTokens (a b : Char) : Nat → List Char → List Char
  | 0, s => s
  | fuel + 1, s =>
    match s with
    | [] => []
    | c :: cs =>
      if c = a then
        let ws := cs.takeWhile isReWs
        match cs.dropWhile isReWs with
        | d :: r2 =>
          if d = b && ws.contains '\n' then
            a :: ',' :: '\n' :: b :: replAdjTokens a b fuel r2
          else c :: replAdjTokens a b fuel cs
        | [] => c :: replAdjTokens a b fuel cs
      else c :: replAdjTokens a b fuel cs

/-- JS `String.prototype.trim` (ASCII fragment). -/
def trimWs (l : List Char) : List Char :=
  ((l.dropWhile isReWs).reverse.dropWhile isReWs).reverse

/-- Model of `fixCommonJSONIssues` on character lists: the source's
replacement passes, in order, followed by the brace/bracket balancing and
the final trim. -/
def fixCommonJSONIssuesL (s : List Char) : List Char :=
  let s1 := replFenceJson (s.length + 1) s
  let s2 := replFenceEnd s1
  let s3 := replLineComments (s2.length + 1) s2
  let s4 := replBlockComments (s3.length + 1) s3
  let s5 := replUnquotedKeys (s4.length + 1) s4
  let s6 := replSingleQuoted (s5.length + 1) s5
  let s7 := replTrailingComma [rbraceC, ']'] (s6.length + 1) s6
  let s8 := replAdjTokens quoteC quoteC (s7.length + 1) s7
  let s9 := replAdjTokens rbraceC lbraceC (s8.length + 1) s8
  let s10 := replAdjTokens ']' '[' (s9.length + 1) s9
  let s11 := replTrailingComma [rbraceC] (s10.length + 1) s10
  let s12 := replTrailingComma [']'] (s11.length + 1) s11
  let s13 := s12 ++ List.replicate (s12.count lbraceC - s12.count rbraceC) rbraceC
  let s14 := s13 ++ List.replicate (s12.count '[' - s12.count ']') ']'
  trimWs s14

/-- String-level `fixCommonJSONIssues`. -/
def fixCommonJSONIssues (s : String) : String := ⟨fixCommonJSONIssuesL s.data⟩

/-- Input after the first fence marker, or none. -/
def afterFence : List Char → Option (List Char)
  | [] => none
  | c :: cs =>
    if fenceMark.isPrefixOf (c :: cs) then some ((c :: cs).drop 3)
    else afterFence cs

/-- Text strictly before the first fence marker of the input, paired with
the text after that marker. -/
def beforeFence : List Char → Option (List Char × List Char)
  | [] => none
  | c :: cs =>
    if fenceMark.isPrefixOf (c :: cs) then some ([], (c :: cs).drop 3)
    else (beforeFence cs).map (fun p => (c :: p.1, p.2))

/-- Capture of the fenced-code-block regex of `parseAIJSONResponse`, up to
the trim the caller applies: the text between the first fence marker (with
an optional word json) and the next one.  The edges the regex itself
consumes are whitespace, so the trimmed capture is the trimmed
between-text. -/
def fenceCapture (s : List Char) : Option (List Char) :=
  (afterFence s).bind (fun after =>
    let body := if ("json".data).isPrefixOf after then after.drop 4 else after
    (beforeFence body).map (fun p => p.1))

/-- Scan of `extractBalanced`: counts the open and close characters from
the first opener and returns the consumed slice once the depth returns to
zero (string contents are not treated specially, as in the source). -/
def balScan (openC closeC : Char) : List Char → Int → List Char → Option (List Char)
  | [], _, _ => none
  | c :: cs, depth, acc =>
    let d2 : Int := if c = openC then depth + 1 else if c = closeC then depth - 1 else depth
    if d2 = 0 then some (c :: acc).reverse else balScan openC closeC cs d2 (c :: acc)

/-- Model of the `extractBalanced` helper inside `parseAIJSONResponse`. -/
def extractBalanced (openC closeC : Char) (s : List Char) : Option (List Char) :=
  match s.dropWhile (fun c => !(c = openC)) with
  | [] => none
  | c :: cs => balScan openC closeC (c :: cs) 0 []

/-- Greedy fallback extraction: from the first opener to the last closer
(the regex with a greedy any-character class). -/
def greedyExtract (openC closeC : Char) (s : List Char) : Option (List Char) :=
  match s.dropWhile (fun c => !(c = openC)) with
  | [] => none
  | c :: cs =>
    let tl := (c :: cs).reverse.dropWhile (fun d => !(d = closeC))
    match tl with
    | [] => none
    | _ => some tl.reverse

/-- Repair-and-parse attempt applied to each extracted fragment. -/
def repairParse (l : List Char) : Option J :=
  (jsonParseL (fixCommonJSONIssuesL l)).toOption

/-- Model of `parseAIJSONResponse` (src/server/utils/jsonParser.js, lines
48-107) on string inputs (every call site passes a string, so the
non-string branch of the source is not modelled): direct parse, then the
fenced-block, balanced-object, greedy-object, balanced-array and
greedy-array extractions, each repaired by `fixCommonJSONIssues` before
the retry; a typed error when every attempt fails. -/
def parseAIJSONResponse (s : String) : Except Unit J :=
  match jsonParse s with
  | .ok v => .ok v
  | .error _ =>
    let fenceAttempt : Option J :=
      (fenceCapture s.data).bind (fun inner => repairParse (trimWs inner))
    let objStr : Option (List Char) :=
      (extractBalanced lbraceC rbraceC s.data).orElse
        (fun _ => greedyExtract lbraceC rbraceC s.data)
    let arrStr : Option (List Char) :=
      (extractBalanced '[' ']' s.data).orElse
        (fun _ => greedyExtract '[' ']' s.data)
    match (fenceAttempt.orElse (fun _ => objStr.bind repairParse)).orElse
        (fun _ => arrStr.bind repairParse) with
    | some v => .ok v
    | none => .error ()

/-- Sample well-formed value used to witness the round-trip theorem. -/
def rtSample : J :=
  .obj [("plan", .arr [.num 1, .str "x y", .bool true, .null]), ("n", .num (-7))]

/-- Claim C8 (counterexample).  The claim states that any input containing
trailing commas normalizes to the same logical value as its well-formed
equivalent.  The input below contains one trailing comma; its well-formed
equivalent parses to an object whose value is the string b-comma-bracket,
but the trailing-comma repair regex also fires inside the string literal,
so normalization returns a different logical value. -/
theorem C8_repair_counterexample :
    jsonParse "\x7b\"a\": \"b,]\"\x7d" = .ok (J.obj [("a", .str "b,]")]) ∧
    parseAIJSONResponse "\x7b\"a\": \"b,]\",\x7d" = .ok (J.obj [("a", .str "b]")]) ∧
    J.obj [("a", .str "b]")] ≠ J.obj [("a", .str "b,]")] :=
  ⟨rfl, rfl, by simp⟩

/-- Claim C8 (amended).  For every well-formed JSON value V (objects with
distinct keys, integer numerals), `parseAIJSONResponse` applied to the
serialization of V returns the same logical value as V, and the scenario
input with unquoted keys and a trailing comma outside any string literal
normalizes to the object mapping a to 1 and b to 2.  (The original claim's
universal statement over all inputs containing trailing commas, single
quotes or unquoted keys is refuted by `C8_repair_counterexample`: the
repair regexes also fire inside string literals.) -/
theorem C8_normalization_roundtrip :
    (∀ v : J, wfV v = true → parseAIJSONResponse (jsonStringify v) = .ok v) ∧
    parseAIJSONResponse "\x7ba:1, b:2,\x7d" = .ok (J.obj [("a", .num 1), ("b", .num 2)]) := by
  constructor
  · intro v h
    simp only [parseAIJSONResponse]
    rw [jsonParse_stringify v h]
  · rfl

/-- Witness for `C8_normalization_roundtrip` at a concrete value. -/
theorem C8_normalization_roundtrip_witness :
    parseAIJSONResponse (jsonStringify rtSample) = .ok rtSample :=
  C8_normalization_roundtrip.1 rtSample (by rfl)

/-!
JavaScript runtime helpers used by the planner and the generator
normalization: truthiness, string conversion, number conversion and
property access.  These model the standard coercions at the values that
actually occur (note the comments on approximated corners; no theorem
depends on them).
-/

/-- JS truthiness of a value.  A non-integer numeric literal is falsy
exactly when its digits are all zero. -/
def truthy : J → Bool
  | .null => false
  | .bool b => b
  | .num n => !(n = 0)
  | .numF lit => lit.data.any (fun c => isDigitC c && !(c = '0'))
  | .nan => false
  | .str s => !(s = "")
  | .arr _ => true
  | .obj _ => true

mutual
/-- JS `String(x)` conversion.  A non-integer numeric literal prints as its
literal text (an approximation of float printing that is exact for the
canonical literals produced in this development). -/
def jsToString : J → String
  | .null => "null"
  | .bool true => "true"
  | .bool false => "false"
  | .num n => ⟨intChars n⟩
  | .numF lit => lit
  | .nan => "NaN"
  | .str s => s
  | .arr l => String.intercalate "," (jsToStringArr l)
  | .obj _ => "[object Object]"

/-- Elements of an array under `Array.prototype.join`: null prints as the
empty string there. -/
def jsToStringArr : List J → List String
  | [] => []
  | .null :: xs => "" :: jsToStringArr xs
  | x :: xs => jsToString x :: jsToStringArr xs
end

/-- Integer denoted by a trimmed decimal numeral, if any. -/
def strToIntL (l : List Char) : Option Int :=
  match l with
  | [] => none
  | c :: cs =>
    let (neg, body) : Bool × List Char := if c = '-' then (true, cs) else (false, c :: cs)
    if body ≠ [] ∧ body.all isDigitC then
      some (if neg then -(digitsToNat body : Int) else (digitsToNat body : Int))
    else none

/-- JS `Number(x)` conversion into the value model: numbers pass through,
booleans and null coerce, a numeric string parses (an integer numeral
exactly; a non-integer or non-numeric string is approximated as kept text
or NaN), everything else is NaN.  No theorem depends on the approximated
corners. -/
def jsToNumber : J → J
  | .num n => .num n
  | .numF lit => .numF lit
  | .nan => .nan
  | .null => .num 0
  | .bool true => .num 1
  | .bool false => .num 0
  | .str s =>
    match strToIntL (trimWs s.data) with
    | some n => .num n
    | none => if (trimWs s.data).isEmpty then .num 0 else .nan
  | .arr [] => .num 0
  | .arr (_ :: _) => .nan
  | .obj _ => .nan

/-- JS property access on a value: an own property of an object, absent
everywhere else (access on null, which throws, is handled by the callers). -/
def jGet (v : J) (k : String) : Option J :=
  match v with
  | .obj l => (l.find? (fun kv => kv.1 = k)).map (fun kv => kv.2)
  | _ => none

/-- JS `x || d` on a possibly-absent property value. -/
def jOr (v : Option J) (d : J) : J :=
  match v with
  | some x => if truthy x then x else d
  | none => d

/-- ASCII lower-casing of one character (the fragment of
`String.prototype.toLowerCase` exercised by this development). -/
def toLowerC (c : Char) : Char :=
  if 65 ≤ c.toNat && c.toNat ≤ 90 then Char.ofNat (c.toNat + 32) else c

/-- ASCII `toLowerCase`. -/
def strToLower (s : String) : String := ⟨s.data.map toLowerC⟩

/-!
Model of `LessonPlanner.createPlan` (the lesson planner module).  The
prompt text only feeds the generation service, whose reply is the
universally quantified oracle `svc`, so prompt construction is not
modelled.  A JS throw is `Except.error`; the outer catch returns the
deterministic fallback plan.
-/

/-- Normalization of one parsed plan step, with the source's defaults.
Property access on a null element throws (the inner catch then reруns the
raw re-parse path); access on any other non-object yields the defaults. -/
def normalizeStep (idx : Nat) (step : J) : Except Unit J :=
  match step with
  | .null => .error ()
  | _ =>
    let idV := jOr (jGet step "id") (.str ("step_" ++ toString (idx + 1)))
    let typeV := strToLower (jsToString (jOr (jGet step "type") (.str "narration")))
    let titleV := jOr (jGet step "title") (.str ("Step " ++ toString (idx + 1)))
    let objV := jOr (jGet step "objective") (.str "Learn a key concept")
    let minutesV := jsToNumber (jOr (jGet step "estimated_minutes") (.num 2))
    let base := [("id", idV), ("type", J.str typeV), ("title", titleV),
      ("objective", objV), ("estimated_minutes", minutesV)]
    match jGet step "options" with
    | some (.arr os) => .ok (.obj (base ++ [("options", J.arr os)]))
    | _ => .ok (.obj base)

/-- Index-threaded normalization of the parsed step array (the map of the
source; the first throw aborts the whole map). -/
def normalizeSteps : Nat → List J → Except Unit (List J)
  | _, [] => .ok []
  | idx, s :: rest => do
    let x ← normalizeStep idx s
    let xs ← normalizeSteps (idx + 1) rest
    .ok (x :: xs)

/-- One step of the deterministic fallback plan (1-based index). -/
def fallbackStep (i : Nat) : J :=
  let idx := i + 1
  let isChoice := idx % 4 = 0
  .obj ([("id", .str ((if isChoice then "choice_" else "step_") ++ toString idx)),
    ("type", .str (if isChoice then "choice"
      else if idx % 3 = 0 then "quiz" else "narration")),
    ("title", .str (if isChoice then "Choose your path " ++ toString idx
      else "Learning Step " ++ toString idx)),
    ("objective", .str (if isChoice then "Select an exploration path"
      else "Understand concept " ++ toString idx)),
    ("estimated_minutes", J.num (if isChoice then 2 else 3))] ++
    (if isChoice then
      [("options", J.arr [
        .obj [("text", .str "Path A"), ("next", .str ("step_" ++ toString (idx + 1)))],
        .obj [("text", .str "Path B"), ("next", .str ("step_" ++ toString (idx + 1)))]])]
     else []))

/-- The deterministic synthetic fallback plan (8 steps). -/
def fallbackPlan : J := .arr ((List.range 8).map fallbackStep)

/-- Inner catch of `createPlan`: re-parse the repaired raw reply and
return it untouched when it is an array; otherwise the rethrow reaches the
outer catch, which returns the fallback plan. -/
def innerReparse (raw : String) : J :=
  match jsonParse (fixCommonJSONIssues raw) with
  | .ok (.arr l) => .arr l
  | _ => fallbackPlan

/-- Model of `LessonPlanner.createPlan`; `svc` is the generation-service
reply (or its failure). -/
def createPlan (svc : Except Unit String) : J :=
  match svc with
  | .error _ => fallbackPlan
  | .ok raw =>
    match parseAIJSONResponse raw with
    | .ok (.arr steps) =>
      match normalizeSteps 0 steps with
      | .ok l => .arr l
      | .error _ => innerReparse raw
    | .ok _ => innerReparse raw
    | .error _ => innerReparse raw

/-- String-valued field of every element of a plan array (used to state
invariants about concrete plans). -/
def planStrField (f : String) (p : J) : List String :=
  match p with
  | .arr l => l.filterMap (fun s => match jGet s f with
      | some (.str x) => some x
      | _ => none)
  | _ => []

/-- Integer minutes fields of a plan array. -/
def planMinutes (p : J) : List Int :=
  match p with
  | .arr l => l.filterMap (fun s => match jGet s "estimated_minutes" with
      | some (.num n) => some n
      | _ => none)
  | _ => []

/-- Next-pointers of the options of one step. -/
def optionNexts (s : J) : List String :=
  match jGet s "options" with
  | some (.arr os) => os.filterMap (fun o => match jGet o "next" with
      | some (.str x) => some x
      | _ => none)
  | _ => []

/-- Every path of `innerReparse` returns a JSON array value. -/
theorem innerReparse_isArr (raw : String) : ∃ l, innerReparse raw = J.arr l := by
  unfold innerReparse
  split
  · exact ⟨_, rfl⟩
  · exact ⟨_, rfl⟩

/-- Claim C6 (counterexample).  The claim states `createPlan` always
returns at least one step; when the generation service replies with an
empty JSON array, the returned plan is empty. -/
theorem C6_empty_plan_counterexample :
    createPlan (Except.ok "[]") = J.arr [] ∧
    planStrField "id" (createPlan (Except.ok "[]")) = [] :=
  ⟨rfl, rfl⟩

/-- Claim C6 (amended).  `createPlan` never raises and always returns an
array of steps; when the generation-service call fails it returns the
deterministic fallback plan, which does satisfy the claimed invariants
(eight steps, unique ids, minutes at least one, types within the
enumerated set).  But a service reply that parses as an array is returned
after per-element defaulting only, so it can be empty
(`C6_empty_plan_counterexample`), contain duplicated ids, types outside
the set, or minutes below one. -/
theorem C6_createPlan_fallback_invariants :
    (∀ svc : Except Unit String, ∃ l, createPlan svc = J.arr l) ∧
    createPlan (Except.error ()) = fallbackPlan ∧
    planStrField "id" fallbackPlan =
      ["step_1", "step_2", "step_3", "choice_4", "step_5", "step_6", "step_7", "choice_8"] ∧
    (planStrField "id" fallbackPlan).Nodup ∧
    (∀ t ∈ planStrField "type" fallbackPlan,
      t ∈ (["narration", "quiz", "image", "reflection", "choice"] : List String)) ∧
    planMinutes fallbackPlan = [3, 3, 3, 2, 3, 3, 3, 2] ∧
    (∀ m ∈ planMinutes fallbackPlan, 1 ≤ m) := by
  refine ⟨?_, rfl, rfl, by decide, by decide, rfl, by decide⟩
  intro svc
  match svc with
  | .error _ => exact ⟨_, rfl⟩
  | .ok raw =>
    simp only [createPlan]
    split
    · split
      · exact ⟨_, rfl⟩
      · exact innerReparse_isArr raw
    · exact innerReparse_isArr raw
    · exact innerReparse_isArr raw

/-- Condition under which `createPlan` reaches its outer catch with a
normalized non-sequence result: the tolerant parse succeeded with a value
that is not an array, and the repaired raw re-parse does not produce an
array either. -/
def planSvcNotSeq (raw : String) : Prop :=
  (∃ v, parseAIJSONResponse raw = .ok v ∧ ∀ l, v ≠ J.arr l) ∧
  ∀ l, jsonParse (fixCommonJSONIssues raw) ≠ .ok (J.arr l)

/-- Claim C7 (counterexample).  The claim describes the synthetic fallback
plan as alternating narration and quiz outside the choice steps and as
having branch options pointing at the next step of the plan.  In the
actual fallback plan the first two steps are both narration (quiz appears
only at indices divisible by three), and the options of the final choice
step point at a step id that does not exist in the plan. -/
theorem C7_fallback_shape_counterexample :
    createPlan (Except.error ()) = fallbackPlan ∧
    planStrField "type" fallbackPlan =
      ["narration", "narration", "quiz", "choice", "narration", "quiz", "narration", "choice"] ∧
    optionNexts (fallbackStep 7) = ["step_9", "step_9"] ∧
    "step_9" ∉ planStrField "id" fallbackPlan :=
  ⟨rfl, rfl, rfl, by decide⟩

/-- Claim C7 (amended).  Whenever the generation-service call fails, or
its normalized result is not a sequence and the repaired raw re-parse does
not produce a sequence either, `createPlan` returns the deterministic
eight-step synthetic plan in which every 4th step has type choice with two
generic options whose next pointer is the id of the following step number
(dangling for the final choice step), and every other step has type quiz
when its 1-based index is divisible by three and narration otherwise. -/
theorem C7_fallback_plan (svc : Except Unit String)
    (h : svc = .error () ∨ ∃ raw, svc = .ok raw ∧ planSvcNotSeq raw) :
    createPlan svc = fallbackPlan ∧
    planStrField "id" fallbackPlan =
      ["step_1", "step_2", "step_3", "choice_4", "step_5", "step_6", "step_7", "choice_8"] ∧
    planStrField "type" fallbackPlan =
      ["narration", "narration", "quiz", "choice", "narration", "quiz", "narration", "choice"] ∧
    optionNexts (fallbackStep 3) = ["step_5", "step_5"] ∧
    optionNexts (fallbackStep 7) = ["step_9", "step_9"] ∧
    (∀ i, i < 8 → ¬ (i + 1) % 4 = 0 → optionNexts (fallbackStep i) = []) := by
  refine ⟨?_, rfl, rfl, rfl, rfl, by decide⟩
  rcases h with rfl | ⟨raw, rfl, ⟨⟨v, hv, hnotarr⟩, hfix⟩⟩
  · rfl
  · simp only [createPlan]
    rw [hv]
    have hrep : innerReparse raw = fallbackPlan := by
      unfold innerReparse
      split
      · rename_i l heq
        exact absurd heq (hfix l)
      · rfl
    match v, hnotarr with
    | .null, _ => exact hrep
    | .bool b, _ => exact hrep
    | .num n, _ => exact hrep
    | .numF lit, _ => exact hrep
    | .nan, _ => exact hrep
    | .str s, _ => exact hrep
    | .arr l, hnotarr => exact absurd rfl (hnotarr l)
    | .obj l, _ => exact hrep

/-- Witness for `C7_fallback_plan` at a failing service call. -/
theorem C7_fallback_plan_witness :
    createPlan (Except.error ()) = fallbackPlan ∧
    planStrField "id" fallbackPlan =
      ["step_1", "step_2", "step_3", "choice_4", "step_5", "step_6", "step_7", "choice_8"] ∧
    planStrField "type" fallbackPlan =
      ["narration", "narration", "quiz", "choice", "narration", "quiz", "narration", "choice"] ∧
    optionNexts (fallbackStep 3) = ["step_5", "step_5"] ∧
    optionNexts (fallbackStep 7) = ["step_9", "step_9"] ∧
    (∀ i, i < 8 → ¬ (i + 1) % 4 = 0 → optionNexts (fallbackStep i) = []) :=
  C7_fallback_plan (Except.error ()) (Or.inl rfl)

/-!
Model of `dynamicLessonGenerator.generateContentForStep`
(src/server/controllers/dynamicLessonGenerator.js, lines 31-127).  The
plan step is a record of the fields the function reads; the context is
reduced to the one field that reaches the output
(`learningAnalysis?.currentLevel`), since every other context field only
feeds the prompt text, which is absorbed into the service oracle `svc`.
-/

/-- Option of a choice plan step, with the fields the generator reads. -/
structure StepOption where
  text : String
  next : Option String
  consequence : Option String
  learning_value : Option String

/-- Plan step as read by the content generator. -/
structure PlanStep where
  id : String
  type : String
  title : String
  objective : String
  options : Option (List StepOption)

/-- Normalized block type of a step (the source's
`String(step.type || 'narration').toLowerCase()`). -/
def normType (step : PlanStep) : String :=
  strToLower (if step.type = "" then "narration" else step.type)

/-- Choice entry built from one step option. -/
def choiceOfOption (lvl : Option String) (opt : StepOption) : J :=
  .obj [("text", .str (if opt.text = "" then "Choose" else opt.text)),
    ("next_block", match opt.next with
      | some nx => if nx = "" then .null else .str nx
      | none => .null),
    ("consequence", match opt.consequence with
      | some c => if c = "" then .null else .str c
      | none => .null),
    ("learning_value", match opt.learning_value with
      | some lv => if lv = "" then .null else .str lv
      | none => .null),
    ("difficulty_level", .str (match lvl with
      | some s => if s = "" then "adaptive" else s
      | none => "adaptive"))]

/-- The two generic default choices used when a choice step carries no
options. -/
def defaultChoices : List J :=
  [.obj [("text", .str "Explore Path A"), ("next_block", .null),
     ("consequence", .str "Different examples"), ("learning_value", .str "Application focus"),
     ("difficulty_level", .str "adaptive")],
   .obj [("text", .str "Explore Path B"), ("next_block", .null),
     ("consequence", .str "Different examples"), ("learning_value", .str "Concept focus"),
     ("difficulty_level", .str "adaptive")]]

/-- Deterministic fallback block returned by the outer catch of the
generator. -/
def fallbackBlock (step : PlanStep) : J :=
  .obj [("block_id", .str step.id),
    ("type", .str (normType step)),
    ("title", .str step.title),
    ("content", .str ("This slide covers: " ++ step.objective)),
    ("learning_goal", .str step.objective),
    ("media", .obj [("image", .str "/images/mars_base_dark.png")]),
    ("llm_instruction", .str "Provide supportive, encouraging guidance."),
    ("error", .str "Fallback content due to AI error")]

/-- Model of `generateContentForStep`; `lvl` is the current level carried
by the learning analysis of the context, `svc` the generation-service
reply.  The function is total: every failure path ends in the fallback
block, mirroring the source's catch-all. -/
def generateContentForStep (step : PlanStep) (lvl : Option String)
    (svc : Except Unit String) : J :=
  let t := normType step
  if t = "choice" then
    let choices : List J := match step.options with
      | some (o :: os) => (o :: os).map (choiceOfOption lvl)
      | _ => defaultChoices
    .obj [("block_id", .str step.id), ("type", .str "choice"), ("title", .str step.title),
      ("content", .str "Choose your next course of action to continue the mission."),
      ("learning_goal", .str step.objective),
      ("choices", .arr choices),
      ("llm_instruction",
       .str "Present options neutrally. After user selects, branch to indicated next block.")]
  else if t = "image" then
    .obj [("block_id", .str step.id), ("type", .str "image"), ("title", .str step.title),
      ("content", .str step.objective),
      ("learning_goal", .str step.objective),
      ("media", .obj [("image", .str "/images/space_scene.png")]),
      ("llm_instruction",
       .str "Use the image to anchor the brief explanation. Invite observation.")]
  else
    match svc with
    | .error _ => fallbackBlock step
    | .ok resp =>
      match parseAIJSONResponse resp with
      | .ok parsed => parsed
      | .error _ =>
        match jsonParse (fixCommonJSONIssues resp) with
        | .ok v => v
        | .error _ => fallbackBlock step

/-- Scenario step s4 of the specification (a narration step). -/
def s4Step : PlanStep :=
  { id := "s4", type := "narration", title := "Step s4",
    objective := "orbital mechanics", options := none }

/-- Claim C5.  For every plan step whose type dispatches to the external
generation call (neither choice nor image, which are built without a
call), and every service behaviour in which the call fails or neither
normalization attempt parses, `generateContentForStep` returns the
deterministic fallback block, whose error marker is set and whose content
is non-empty.  The function itself is total over all step, context and
service values, mirroring the source's catch-all: it never raises. -/
theorem C5_generator_never_raises (step : PlanStep) (lvl : Option String)
    (svc : Except Unit String)
    (htype : ¬ normType step = "choice" ∧ ¬ normType step = "image")
    (hfail : svc = .error () ∨ ∃ r, svc = .ok r ∧ parseAIJSONResponse r = .error () ∧
      jsonParse (fixCommonJSONIssues r) = .error ()) :
    generateContentForStep step lvl svc = fallbackBlock step ∧
    jGet (fallbackBlock step) "error" = some (.str "Fallback content due to AI error") ∧
    ∃ c, jGet (fallbackBlock step) "content" = some (.str c) ∧ c ≠ "" := by
  refine ⟨?_, rfl, ⟨"This slide covers: " ++ step.objective, rfl, ?_⟩⟩
  · rcases hfail with rfl | ⟨r, rfl, hp, hj⟩
    · simp only [generateContentForStep, if_neg htype.1, if_neg htype.2]
    · simp only [generateContentForStep, if_neg htype.1, if_neg htype.2, hp, hj]
  · intro h
    have hlen := congrArg String.length h
    rw [String.length_append] at hlen
    have h19 : ("This slide covers: " : String).length = 19 := rfl
    have h0 : ("" : String).length = 0 := rfl
    rw [h19, h0] at hlen
    omega

/-- Witness for `C5_generator_never_raises`: scenario D — the generation
service throws for narration step s4, and the generator returns the
fallback block with the error marker and non-empty content. -/
theorem C5_generator_never_raises_witness :
    generateContentForStep s4Step none (Except.error ()) = fallbackBlock s4Step ∧
    jGet (fallbackBlock s4Step) "error" = some (.str "Fallback content due to AI error") ∧
    ∃ c, jGet (fallbackBlock s4Step) "content" = some (.str c) ∧ c ≠ "" :=
  C5_generator_never_raises s4Step none (Except.error ())
    (by constructor <;> decide) (Or.inl rfl)

/-!
Model of the session state machine
(src/server/controllers/lessonSessionEngine.js).  Blocks, turns and plan
steps are records of the fields the engine reads; session-constant
metadata (ids, titles, timestamps, the user record and the unused
history) is omitted.  The collaborator calls inside `nextTurn` and
`submitResponse` are an oracle record per call; every `.catch` of the
source is the corresponding `match` on the oracle's `Except`.
-/

/-- Choice entry of a choice block, with the fields the engine reads. -/
structure SChoice where
  text : String
  next_block : Option String

/-- Conversational turn (`say` or `question`, with the meta type tag). -/
structure Turn where
  say : Option String
  question : Option String
  mtype : String

/-- Generated block, with the fields the engine reads: `content` is none
when the field is absent or not a string, `choices` is none when the field
is not an array, `socratic` is the (defaulted) socratic-question list. -/
structure SBlock where
  block_id : String
  type : String
  content : Option String
  choices : Option (List SChoice)
  socratic : List String
  media : Option J
  llm_instruction : Option String

/-- Plan step as the engine sees it (only the id is read; the full step is
passed through to the content generator, which the oracle models). -/
structure SStep where
  id : String
  type : String

/-- Session state: the per-session record of the engine (the
`state.lesson.blocks` array, the plan with its id index derived by
`planIndexById` below, the cursor, the memoized turns and the cached
collaborator snapshots). -/
structure SessionState where
  blocks : List SBlock
  plan : List SStep
  blockIndex : Nat
  turnIndex : Nat
  turnsByBlock : List (Nat × List Turn)
  lastAssessment : Option J
  personalization : J
  enhancedContext : J
  conversationSummary : String

/-- The step index map built by `Object.fromEntries` at session start: a
duplicated id keeps its last position.  The plan never changes after
`startSession`, so the map is modelled as this derived lookup. -/
def planIndexById (plan : List SStep) (id : String) : Option Nat :=
  ((plan.enum).reverse.find? (fun si => si.2.id = id)).map (fun si => si.1)

/-- Lookup in the memoized turns map. -/
def lookupTurns (m : List (Nat × List Turn)) (i : Nat) : Option (List Turn) :=
  (m.find? (fun e => e.1 = i)).map (fun e => e.2)

/-- Fallback continuity turn of `_splitContentIntoTurns` (the source's
default turn carries no meta field beyond the narration tag). -/
def fallbackTurn : Turn := { say := some "Let’s continue.", question := none, mtype := "narration" }

/-- Index of the last newline inside a whitespace run (the greedy
backtracking of the blank-line separator regex). -/
def lastNlIdx (l : List Char) : Option Nat :=
  match l.reverse.findIdx? (fun c => c = '\n') with
  | some j => some (l.length - 1 - j)
  | none => none

/-- Split on the blank-line separator regex (a newline, then whitespace up
to and including its last newline). -/
def blankSplitAux : Nat → List Char → List Char → List (List Char)
  | 0, acc, s => [acc.reverse ++ s]
  | fuel + 1, acc, s =>
    match s with
    | [] => [acc.reverse]
    | c :: cs =>
      if c = '\n' then
        let run := cs.takeWhile isReWs
        match lastNlIdx run with
        | some k => acc.reverse :: blankSplitAux fuel [] (cs.drop (k + 1))
        | none => blankSplitAux fuel (c :: acc) cs
      else blankSplitAux fuel (c :: acc) cs

/-- Split on the sentence separator regex: a whitespace run whose
preceding character is terminal punctuation (the lookbehind). -/
def sentSplitAux : Nat → List Char → Option Char → List Char → List (List Char)
  | 0, acc, _, s => [acc.reverse ++ s]
  | fuel + 1, acc, prev, s =>
    match s with
    | [] => [acc.reverse]
    | c :: cs =>
      if isReWs c ∧ (prev = some '.' ∨ prev = some '!' ∨ prev = some '?') then
        let run := (c :: cs).takeWhile isReWs
        acc.reverse :: sentSplitAux fuel [] none ((c :: cs).drop run.length)
      else sentSplitAux fuel (c :: acc) (some c) cs

/-- Join with a single space (`Array.prototype.join` with a space). -/
def joinSpace (l : List (List Char)) : List Char := List.intercalate [' '] l

/-- Model of `_splitContentIntoTurns`: empty or non-string content (none)
yields the fallback continuity turn; otherwise the content splits on blank
lines into trimmed paragraphs, each contributing one say turn made of its
first one or two sentences; whitespace-only content yields one say turn of
the first 200 characters. -/
def splitContentIntoTurns (content : Option String) : List Turn :=
  match content with
  | none => [fallbackTurn]
  | some c =>
    if c = "" then [fallbackTurn]
    else
      let paragraphs := ((blankSplitAux (c.data.length + 1) [] c.data).map trimWs).filter
        (fun p => !p.isEmpty)
      let turns := paragraphs.map (fun p =>
        let sentences := (sentSplitAux (p.length + 1) [] none p).filter (fun x => !x.isEmpty)
        { say := some ⟨joinSpace (sentences.take 2)⟩, question := none,
          mtype := "narration" } : List Char → Turn)
      if turns.isEmpty then
        [{ say := some ⟨c.data.take 200⟩, question := none, mtype := "narration" }]
      else turns

/-- Model of the turn derivation of `_ensureTurnsForBlock`: the base turns
from the content, a socratic question (when present) spliced in at
position 1, and the clamp to six turns. -/
def computeTurns (content : Option String) (socratic : List String) : List Turn :=
  let base := splitContentIntoTurns content
  let withQ := match socratic with
    | [] => base
    | q :: _ => base.insertIdx 1 { say := none, question := some q, mtype := "socratic" }
  withQ.take 6

/-- Model of `_ensureTurnsForBlock`: memoize the turns of a block index at
most once (callers only pass indices of existing blocks). -/
def ensureTurns (s : SessionState) (i : Nat) : SessionState :=
  if (lookupTurns s.turnsByBlock i).isSome then s
  else
    let b := s.blocks.get? i
    let ts := computeTurns (b.bind (fun bl => bl.content))
      ((b.map (fun bl => bl.socratic)).getD [])
    { s with turnsByBlock := s.turnsByBlock ++ [(i, ts)] }

/-- Collaborator results for one engine call: the personalization,
context-summarization, content-generation, assessment, feedback and
strategy services (each `Except.error` models that call rejecting). -/
structure Oracle where
  personalization : Except Unit J
  enhancedContext : Except Unit J
  conversationSummary : Except Unit String
  gen : SStep → SBlock
  assess : Except Unit J
  feedbackSvc : Except Unit String
  strategy : Except Unit J

/-- Refresh of the cached snapshots before generating a new block; each
`.catch` keeps the previous cached value. -/
def refresh (o : Oracle) (s : SessionState) : SessionState :=
  { s with
    personalization := (match o.personalization with
      | .ok p => p
      | .error _ => s.personalization),
    enhancedContext := (match o.enhancedContext with
      | .ok p => p
      | .error _ => s.enhancedContext),
    conversationSummary := (match o.conversationSummary with
      | .ok p => p
      | .error _ => s.conversationSummary) }

/-- Serializable turn payload of `_currentTurnPayload` (session-constant
fields omitted). -/
structure TurnPayload where
  blockId : String
  blockType : String
  blockIdx : Nat
  turnIdx : Nat
  say : Option String
  question : Option String
  media : Option J
  choices : Option (List SChoice)
  next_hint : Option String
  awaitingChoice : Bool
  done : Bool

/-- Model of `_currentTurnPayload` (callers guarantee the current block
exists; the default turn is the continuing placeholder). -/
def currentTurnPayload (s : SessionState) : TurnPayload :=
  let b := s.blocks.get? s.blockIndex
  let turns := (lookupTurns s.turnsByBlock s.blockIndex).getD []
  let turn := (turns.get? s.turnIndex).getD
    { say := some "Continuing…", question := none, mtype := "" }
  { blockId := (b.map (fun bl => bl.block_id)).getD "",
    blockType := (b.map (fun bl => bl.type)).getD "",
    blockIdx := s.blockIndex,
    turnIdx := s.turnIndex,
    say := turn.say,
    question := turn.question,
    media := b.bind (fun bl => bl.media),
    choices := if strToLower ((b.map (fun bl => bl.type)).getD "") = "choice" then
        some ((b.bind (fun bl => bl.choices)).getD [])
      else none,
    next_hint := (match b.bind (fun bl => bl.llm_instruction) with
      | some li => if li = "" then none
                   else some "Tutor will guide with short, supportive turns."
      | none => none),
    awaitingChoice := false,
    done := false }

/-- Result of `nextTurn`: a turn payload, the lesson-complete marker, or
the crash of reading a property of a missing block (unreachable while the
cursor invariant holds). -/
inductive NextResult where
  | payload (p : TurnPayload)
  | done (message : String)
  | engineErr

/-- Model of `nextTurn` (lessonSessionEngine.js, lines 82-136). -/
def nextTurn (o : Oracle) (s : SessionState) : SessionState × NextResult :=
  let turns := (lookupTurns s.turnsByBlock s.blockIndex).getD []
  if s.turnIndex + 1 < turns.length then
    let s2 := { s with turnIndex := s.turnIndex + 1 }
    (s2, .payload (currentTurnPayload s2))
  else if strToLower (((s.blocks.get? s.blockIndex).map (fun b => b.type)).getD "") =
      "choice" then
    (s, .payload { currentTurnPayload s with
      awaitingChoice := true,
      choices := some (((s.blocks.get? s.blockIndex).bind (fun b => b.choices)).getD []) })
  else if s.blockIndex + 1 < s.blocks.length then
    let s2 := ensureTurns { s with blockIndex := s.blockIndex + 1, turnIndex := 0 }
      (s.blockIndex + 1)
    (s2, .payload (currentTurnPayload s2))
  else
    match s.blocks.get? s.blockIndex with
    | none => (s, .engineErr)
    | some cur =>
      let stepIdx := (planIndexById s.plan cur.block_id).getD s.blockIndex
      match s.plan.get? (stepIdx + 1) with
      | some nextStep =>
        let s1 := refresh o s
        let nb := o.gen nextStep
        let s2 := { s1 with
          blocks := s1.blocks ++ [nb]
          blockIndex := s.blockIndex + 1
          turnIndex := 0 }
        let s3 := ensureTurns s2 (s.blockIndex + 1)
        (s3, .payload (currentTurnPayload s3))
      | none => (s, .done "Lesson complete. Great job!")

/-- Iterated calls of `nextTurn`, one oracle per call. -/
def nextTurnIter : List Oracle → SessionState → SessionState
  | [], s => s
  | o :: os, s => nextTurnIter os (nextTurn o s).1

/-- User response passed to `submitResponse`: a plain string or an object
carrying the optional selection index and text. -/
inductive UserResponse where
  | str (s : String)
  | obj (choiceIndex : Option Int) (choiceText : Option String)

/-- Fixed neutral feedback substituted when the feedback call or its
normalization fails. -/
def defaultFeedback : J :=
  .obj [("feedback", .str "Thanks for sharing!"), ("next_action", .str "question"),
    ("follow_up_question", .null), ("confidence", .numF "0.6")]

/-- Recommendation object of `_maybeRecommendNext` (null on failure). -/
structure Recommendation where
  next_actions : Option J
  methodology : Option J

/-- Model of `_maybeRecommendNext`. -/
def maybeRecommendNext (o : Oracle) : Option Recommendation :=
  match o.strategy with
  | .ok st => some
      { next_actions := (jGet st "actions").bind (fun a => jGet a "immediate_actions"),
        methodology := (jGet st "methodology").bind (fun m => jGet m "primary_methodology") }
  | .error _ => none

/-- Result of `submitResponse`: the branched payload of a choice block, or
the assessment/feedback/recommendation record of a non-choice block. -/
inductive SubmitResult where
  | branched (choice : Option SChoice) (p : TurnPayload)
  | feedback (assessment : Option J) (fb : J) (rec : Option Recommendation)
  | engineErr

/-- The done marker of a result, when its payload carries one: a branched
response spreads the turn payload (whose done flag is false); a feedback
response has no done property at all. -/
def SubmitResult.doneField : SubmitResult → Option Bool
  | .branched _ p => some p.done
  | .feedback _ _ _ => none
  | .engineErr => none

/-- The chosen option carried by a branched result (none for the other
result shapes). -/
def SubmitResult.choiceOf : SubmitResult → Option (Option SChoice)
  | .branched c _ => some c
  | .feedback _ _ _ => none
  | .engineErr => none

/-- Selection resolution of `submitResponse` (lessonSessionEngine.js, lines
156-164): the selection index and text are read only from object-shaped
responses; a nonnegative in-range index wins, otherwise a nonempty selection
text is matched case-insensitively against the option texts. -/
def resolveChoice (choices : List SChoice) (r : UserResponse) : Option SChoice :=
  let selIdx : Option Int := match r with
    | .obj i _ => i
    | _ => none
  let selText : Option String := match r with
    | .obj _ t => t
    | _ => none
  let byIdx : Option SChoice := selIdx.bind (fun i =>
    if 0 ≤ i then choices.get? i.toNat else none)
  match byIdx with
  | some c => some c
  | none =>
    match selText with
    | some t =>
      if t = "" then none
      else choices.find? (fun c => strToLower c.text = strToLower t)
    | none => none

/-- Branch-target computation of `submitResponse` (lines 165-168): the plan
step named by the chosen option's nonempty next pointer when that id is in
the plan index, otherwise the plan's sequential successor of the current
step id (current block index when the id is not in the plan index). -/
def nextStepOf (s : SessionState) (block : SBlock) (r : UserResponse) : Option SStep :=
  let chosen : Option SChoice := resolveChoice (block.choices.getD []) r
  let nextId : Option String := match chosen with
    | some c =>
      match c.next_block with
      | some nb => if nb = "" then none else some nb
      | none => none
    | none => none
  let nextIdx : Option Nat := nextId.bind (planIndexById s.plan)
  let planIdxFallback := (planIndexById s.plan block.block_id).getD s.blockIndex + 1
  match nextIdx with
  | some j => s.plan.get? j
  | none => s.plan.get? planIdxFallback

/-- Model of `submitResponse` (lessonSessionEngine.js, lines 138-223). -/
def submitResponse (o : Oracle) (s : SessionState) (r : UserResponse) :
    SessionState × SubmitResult :=
  match s.blocks.get? s.blockIndex with
  | none => (s, .engineErr)
  | some block =>
    let assessment : Option J := match o.assess with
      | .ok a => some a
      | .error _ => none
    let s0 := { s with lastAssessment := assessment }
    if strToLower block.type = "choice" then
      let chosen : Option SChoice := resolveChoice (block.choices.getD []) r
      match nextStepOf s block r with
      | some st =>
        let s1 := refresh o s0
        let nb := o.gen st
        let s2 := { s1 with
          blocks := s1.blocks ++ [nb]
          blockIndex := s1.blockIndex + 1
          turnIndex := 0 }
        let s3 := ensureTurns s2 s2.blockIndex
        (s3, .branched chosen (currentTurnPayload s3))
      | none => (s0, .branched chosen (currentTurnPayload s0))
    else
      let feedback : J := match o.feedbackSvc with
        | .error _ => defaultFeedback
        | .ok resp =>
          match parseAIJSONResponse resp with
          | .ok v => v
          | .error _ => defaultFeedback
      (s0, .feedback assessment feedback (maybeRecommendNext o))

/-! ### Engine fixtures for the witnesses -/

/-- A deterministic content generator: one block per plan step. -/
def genX (st : SStep) : SBlock :=
  { block_id := st.id, type := st.type, content := some "Generated text.",
    choices := none, socratic := [], media := none, llm_instruction := none }

/-- Collaborators of the witness sessions: every external call rejects and
the generator is `genX`. -/
def oX : Oracle :=
  { personalization := .error (), enhancedContext := .error (),
    conversationSummary := .error (), gen := genX,
    assess := .error (), feedbackSvc := .error (), strategy := .error () }

/-- A narration block: two paragraphs (three sentences, then one) and one
socratic question, so its derived turns are say, question, say. -/
def blk1 : SBlock :=
  { block_id := "s1", type := "narration",
    content := some "Hello there. Second sentence. Third one.\n\nNext para.",
    choices := none, socratic := ["Why?"], media := none, llm_instruction := none }

/-- Session on `blk1` (turns memoized, cursor at the first turn), with one
further plan step to generate. -/
def st1 : SessionState :=
  { blocks := [blk1], plan := [⟨"s1", "narration"⟩, ⟨"s2", "quiz"⟩],
    blockIndex := 0, turnIndex := 0,
    turnsByBlock := [(0, computeTurns blk1.content blk1.socratic)],
    lastAssessment := none, personalization := .null, enhancedContext := .null,
    conversationSummary := "" }

/-- A choice block with two options pointing at the plan steps s2 and s3. -/
def cblk : SBlock :=
  { block_id := "c1", type := "choice", content := some "Pick.",
    choices := some [⟨"A", some "s2"⟩, ⟨"B", some "s3"⟩], socratic := [],
    media := none, llm_instruction := none }

/-- Session sitting on the choice block `cblk`, its single turn consumed. -/
def st2 : SessionState :=
  { blocks := [cblk], plan := [⟨"c1", "choice"⟩, ⟨"s2", "narration"⟩, ⟨"s3", "narration"⟩],
    blockIndex := 0, turnIndex := 0,
    turnsByBlock := [(0, computeTurns cblk.content cblk.socratic)],
    lastAssessment := none, personalization := .null, enhancedContext := .null,
    conversationSummary := "" }

/-- Exhausted session: the current block is the last generated block, its id
is the last plan step, and its single turn is consumed. -/
def sEx : SessionState :=
  { blocks := [genX ⟨"s2", "quiz"⟩], plan := [⟨"s1", "narration"⟩, ⟨"s2", "quiz"⟩],
    blockIndex := 0, turnIndex := 0,
    turnsByBlock := [(0, computeTurns (some "Generated text.") [])],
    lastAssessment := none, personalization := .null, enhancedContext := .null,
    conversationSummary := "" }

/-! ### Frame lemmas for the engine -/

theorem ensureTurns_blockIndex (s : SessionState) (i : Nat) :
    (ensureTurns s i).blockIndex = s.blockIndex := by
  unfold ensureTurns; split <;> rfl

theorem ensureTurns_turnIndex (s : SessionState) (i : Nat) :
    (ensureTurns s i).turnIndex = s.turnIndex := by
  unfold ensureTurns; split <;> rfl

theorem ensureTurns_blocks (s : SessionState) (i : Nat) :
    (ensureTurns s i).blocks = s.blocks := by
  unfold ensureTurns; split <;> rfl

theorem nextTurn_incr (o : Oracle) (s : SessionState)
    (h : s.turnIndex + 1 < ((lookupTurns s.turnsByBlock s.blockIndex).getD []).length) :
    nextTurn o s = ({ s with turnIndex := s.turnIndex + 1 },
      .payload (currentTurnPayload { s with turnIndex := s.turnIndex + 1 })) := by
  unfold nextTurn
  rw [if_pos h]

theorem nextTurnIter_incr (os : List Oracle) (s : SessionState)
    (h : s.turnIndex + os.length ≤
      ((lookupTurns s.turnsByBlock s.blockIndex).getD []).length - 1) :
    nextTurnIter os s = { s with turnIndex := s.turnIndex + os.length } := by
  induction os generalizing s with
  | nil => rfl
  | cons o os ih =>
    have h1 : s.turnIndex + 1 < ((lookupTurns s.turnsByBlock s.blockIndex).getD []).length := by
      simp only [List.length_cons] at h; omega
    rw [nextTurnIter, nextTurn_incr o s h1, ih]
    · have harith : s.turnIndex + 1 + os.length = s.turnIndex + (os.length + 1) := by omega
      simp only [harith, List.length_cons]
    · simp only [List.length_cons] at h
      simp only []
      omega

theorem nextTurnIter_append (a b : List Oracle) (s : SessionState) :
    nextTurnIter (a ++ b) s = nextTurnIter b (nextTurnIter a s) := by
  induction a generalizing s with
  | nil => rfl
  | cons o a ih => rw [List.cons_append, nextTurnIter, nextTurnIter, ih]

/-- C2: on a session whose current block has type choice, `nextTurn` with the
turns of the block exhausted returns the current turn payload with
awaitingChoice set and the block's choices, leaving the state unchanged; and
whatever the turn cursor is, `nextTurn` never changes blockIndex or the block
list of such a session (a choice block is never auto-advanced). -/
theorem C2_choice_block_awaits (o : Oracle) (s : SessionState) (cur : SBlock)
    (hcur : s.blocks.get? s.blockIndex = some cur)
    (hch : strToLower cur.type = "choice") :
    (((lookupTurns s.turnsByBlock s.blockIndex).getD []).length ≤ s.turnIndex + 1 →
      nextTurn o s = (s, .payload { currentTurnPayload s with
        awaitingChoice := true, choices := some (cur.choices.getD []) })) ∧
    (nextTurn o s).1.blockIndex = s.blockIndex ∧
    (nextTurn o s).1.blocks = s.blocks := by
  have hty : strToLower (((s.blocks.get? s.blockIndex).map (fun b => b.type)).getD "") =
      "choice" := by rw [hcur]; exact hch
  by_cases hlt : s.turnIndex + 1 < ((lookupTurns s.turnsByBlock s.blockIndex).getD []).length
  · refine ⟨fun hex => absurd hlt (by omega), ?_, ?_⟩ <;> rw [nextTurn_incr o s hlt]
  · have heq : nextTurn o s = (s, .payload { currentTurnPayload s with
        awaitingChoice := true, choices := some (cur.choices.getD []) }) := by
      unfold nextTurn
      rw [if_neg hlt, if_pos hty, hcur]
      rfl
    exact ⟨fun _ => heq, by rw [heq], by rw [heq]⟩

theorem C2_choice_block_awaits_witness :
    nextTurn oX st2 = (st2, .payload { currentTurnPayload st2 with
      awaitingChoice := true, choices := some (cblk.choices.getD []) }) ∧
    (nextTurn oX st2).1.blockIndex = st2.blockIndex ∧
    (nextTurn oX st2).1.blocks = st2.blocks := by
  have h := C2_choice_block_awaits oX st2 cblk rfl rfl
  exact ⟨h.1 (by decide), h.2.1, h.2.2⟩

/-- C4 counterexample: on an exhausted session (last plan step reached, all
turns consumed, non-choice block) `nextTurn` does return the done marker and
leaves the state unchanged, but `submitResponse` does not return done:true —
it returns the assessment/feedback record, which carries no done property at
all. -/
theorem C4_submit_not_done_counterexample :
    (nextTurn oX sEx).1 = sEx ∧
    (nextTurn oX sEx).2 = .done "Lesson complete. Great job!" ∧
    (submitResponse oX sEx (.str "I am done")).2 = .feedback none defaultFeedback none ∧
    (submitResponse oX sEx (.str "I am done")).2.doneField ≠ some true := by
  refine ⟨rfl, rfl, rfl, by decide⟩

/-- C4 (amended): on an exhausted session — current block non-choice, its
turns consumed, no generated block after it and no plan step after the
current one — every `nextTurn` call returns the done marker and leaves the
state unchanged, idempotently over any sequence of calls; `submitResponse`
leaves the lesson blocks, cursor and memoized turns unchanged, but returns a
feedback record with no done marker (not done:true) and refreshes only the
lastAssessment field. -/
theorem C4_exhausted_frame (o : Oracle) (s : SessionState) (cur : SBlock) (r : UserResponse)
    (hcur : s.blocks.get? s.blockIndex = some cur)
    (hnc : strToLower cur.type ≠ "choice")
    (hex : ((lookupTurns s.turnsByBlock s.blockIndex).getD []).length ≤ s.turnIndex + 1)
    (hnb : s.blocks.length ≤ s.blockIndex + 1)
    (hnp : s.plan.length ≤ ((planIndexById s.plan cur.block_id).getD s.blockIndex) + 1) :
    (∀ o2 : Oracle, nextTurn o2 s = (s, .done "Lesson complete. Great job!")) ∧
    (∀ os : List Oracle, nextTurnIter os s = s) ∧
    (submitResponse o s r).1.blocks = s.blocks ∧
    (submitResponse o s r).1.blockIndex = s.blockIndex ∧
    (submitResponse o s r).1.turnIndex = s.turnIndex ∧
    (submitResponse o s r).1.turnsByBlock = s.turnsByBlock ∧
    (submitResponse o s r).2.doneField = none := by
  have hty : strToLower (((s.blocks.get? s.blockIndex).map (fun b => b.type)).getD "") ≠
      "choice" := by rw [hcur]; exact hnc
  have key : ∀ o2 : Oracle, nextTurn o2 s = (s, .done "Lesson complete. Great job!") := by
    intro o2
    unfold nextTurn
    rw [if_neg (by omega), if_neg hty, if_neg (by omega)]
    have hget : s.plan.get? (((planIndexById s.plan cur.block_id).getD s.blockIndex) + 1) =
        none := by
      rw [List.get?_eq_none]
      omega
    simp only [hcur, hget]
  have hiter : ∀ os : List Oracle, nextTurnIter os s = s := by
    intro os
    induction os with
    | nil => rfl
    | cons o2 os ih => rw [nextTurnIter, key o2]; exact ih
  have hsub : submitResponse o s r =
      ({ s with lastAssessment := match o.assess with | .ok a => some a | .error _ => none },
        .feedback (match o.assess with | .ok a => some a | .error _ => none)
          (match o.feedbackSvc with
            | .error _ => defaultFeedback
            | .ok resp => match parseAIJSONResponse resp with
              | .ok v => v
              | .error _ => defaultFeedback)
          (maybeRecommendNext o)) := by
    unfold submitResponse
    rw [hcur]
    simp only [if_neg hnc]
  rw [hsub]
  exact ⟨key, hiter, rfl, rfl, rfl, rfl, rfl⟩

theorem C4_exhausted_frame_witness :
    (∀ os : List Oracle, nextTurnIter os sEx = sEx) ∧
    (submitResponse oX sEx (.str "ok")).1.blocks = sEx.blocks ∧
    (submitResponse oX sEx (.str "ok")).2.doneField = none := by
  have h := C4_exhausted_frame oX sEx (genX ⟨"s2", "quiz"⟩) (.str "ok")
    rfl (by decide) (by decide) (by decide) (by decide)
  exact ⟨h.2.1, h.2.2.1, h.2.2.2.2.2.2⟩

/-- C1: on an active session whose current block exists, is non-choice and
has n ≥ 1 memoized turns, with the cursor at turn 0 and a successor available
(an already-generated next block, or a plan step after the current one), the
state after each of the first n-1 `nextTurn` calls is exactly the session
with the turn cursor bumped (so no block is generated and nothing else
changes), and the n-th call advances blockIndex by exactly one and resets
turnIndex to 0. -/
theorem C1_turn_count_advances_block
    (s : SessionState) (os : List Oracle) (cur : SBlock) (ts : List Turn) (n : Nat)
    (hcur : s.blocks.get? s.blockIndex = some cur)
    (hnc : strToLower cur.type ≠ "choice")
    (hts : lookupTurns s.turnsByBlock s.blockIndex = some ts)
    (hlen : ts.length = n) (hn : 1 ≤ n) (ht0 : s.turnIndex = 0)
    (hos : os.length = n)
    (hsucc : s.blockIndex + 1 < s.blocks.length ∨
      ((planIndexById s.plan cur.block_id).getD s.blockIndex) + 1 < s.plan.length) :
    (∀ k, k < n → nextTurnIter (os.take k) s = { s with turnIndex := k }) ∧
    (nextTurnIter os s).blockIndex = s.blockIndex + 1 ∧
    (nextTurnIter os s).turnIndex = 0 := by
  have hgetd : ((lookupTurns s.turnsByBlock s.blockIndex).getD []).length = n := by
    rw [hts]; exact hlen
  have part1 : ∀ k, k < n → nextTurnIter (os.take k) s = { s with turnIndex := k } := by
    intro k hk
    have hlt : (os.take k).length = k := by
      rw [List.length_take]; omega
    have h := nextTurnIter_incr (os.take k) s (by rw [hlt, hgetd]; omega)
    rw [h, hlt, ht0]
    simp only [Nat.zero_add]
  have hdec : os = os.take (n - 1) ++ os.drop (n - 1) := (List.take_append_drop _ _).symm
  obtain ⟨o, ho⟩ : ∃ o, os.drop (n - 1) = [o] := by
    apply List.length_eq_one.mp
    rw [List.length_drop]; omega
  have hmid : nextTurnIter (os.take (n - 1)) s = { s with turnIndex := n - 1 } :=
    part1 (n - 1) (by omega)
  have hfin : nextTurnIter os s = (nextTurn o { s with turnIndex := n - 1 }).1 := by
    conv_lhs => rw [hdec]
    rw [nextTurnIter_append, ho, hmid, nextTurnIter, nextTurnIter]
  set s1 : SessionState := { s with turnIndex := n - 1 } with hs1
  have hty : strToLower (((s1.blocks.get? s1.blockIndex).map (fun b => b.type)).getD "") ≠
      "choice" := by rw [show s1.blocks.get? s1.blockIndex = some cur from hcur]; exact hnc
  have hnoinc : ¬ (s1.turnIndex + 1 <
      ((lookupTurns s1.turnsByBlock s1.blockIndex).getD []).length) := by
    have : ((lookupTurns s1.turnsByBlock s1.blockIndex).getD []).length = n := hgetd
    simp only [hs1]
    rw [show ((lookupTurns s.turnsByBlock s.blockIndex).getD []).length = n from hgetd]
    omega
  by_cases hg : s1.blockIndex + 1 < s1.blocks.length
  · have heq : nextTurn o s1 =
        (ensureTurns { s1 with blockIndex := s1.blockIndex + 1, turnIndex := 0 }
          (s1.blockIndex + 1),
         .payload (currentTurnPayload
           (ensureTurns { s1 with blockIndex := s1.blockIndex + 1, turnIndex := 0 }
             (s1.blockIndex + 1)))) := by
      unfold nextTurn
      rw [if_neg hnoinc, if_neg hty, if_pos hg]
    refine ⟨part1, ?_, ?_⟩
    · rw [hfin, heq, ensureTurns_blockIndex]
    · rw [hfin, heq, ensureTurns_turnIndex]
  · have hp : ((planIndexById s.plan cur.block_id).getD s.blockIndex) + 1 < s.plan.length := by
      rcases hsucc with h | h
      · exact absurd h hg
      · exact h
    obtain ⟨st, hst⟩ : ∃ st, s.plan.get? (((planIndexById s.plan cur.block_id).getD
        s.blockIndex) + 1) = some st := by
      cases hq : s.plan.get? (((planIndexById s.plan cur.block_id).getD s.blockIndex) + 1) with
      | none => exact absurd (List.get?_eq_none.mp hq) (by omega)
      | some st => exact ⟨st, rfl⟩
    have heq : (nextTurn o s1).1 =
        ensureTurns { refresh o s1 with
          blocks := (refresh o s1).blocks ++ [o.gen st]
          blockIndex := s1.blockIndex + 1
          turnIndex := 0 } (s1.blockIndex + 1) := by
      unfold nextTurn
      rw [if_neg hnoinc, if_neg hty, if_neg hg]
      simp only [show s1.blocks.get? s1.blockIndex = some cur from hcur,
        show s1.plan = s.plan from rfl, show s1.blockIndex = s.blockIndex from rfl, hst]
    refine ⟨part1, ?_, ?_⟩
    · rw [hfin, heq, ensureTurns_blockIndex]
    · rw [hfin, heq, ensureTurns_turnIndex]

theorem C1_turn_count_advances_block_witness :
    (nextTurnIter ([oX, oX, oX].take 2) st1 = { st1 with turnIndex := 2 }) ∧
    (nextTurnIter [oX, oX, oX] st1).blockIndex = st1.blockIndex + 1 ∧
    (nextTurnIter [oX, oX, oX] st1).turnIndex = 0 := by
  have h := C1_turn_count_advances_block st1 [oX, oX, oX] blk1
    (computeTurns blk1.content blk1.socratic) 3 rfl (by decide) rfl (by decide)
    (by decide) rfl rfl (Or.inr (by decide))
  exact ⟨h.1 2 (by decide), h.2.1, h.2.2⟩

theorem submitResponse_choice_branched (o : Oracle) (s : SessionState) (cur : SBlock)
    (r : UserResponse)
    (hcur : s.blocks.get? s.blockIndex = some cur)
    (hch : strToLower cur.type = "choice") :
    (submitResponse o s r).2.choiceOf = some (resolveChoice (cur.choices.getD []) r) := by
  unfold submitResponse
  rw [hcur]
  simp only [if_pos hch]
  cases hns : nextStepOf s cur r with
  | some st => simp only [hns, SubmitResult.choiceOf]
  | none => simp only [hns, SubmitResult.choiceOf]

theorem submitResponse_choice_advance (o : Oracle) (s : SessionState) (cur : SBlock)
    (r : UserResponse) (st : SStep)
    (hcur : s.blocks.get? s.blockIndex = some cur)
    (hch : strToLower cur.type = "choice")
    (hst : nextStepOf s cur r = some st) :
    (submitResponse o s r).1.blocks = s.blocks ++ [o.gen st] ∧
    (submitResponse o s r).1.blockIndex = s.blockIndex + 1 ∧
    (submitResponse o s r).1.turnIndex = 0 := by
  unfold submitResponse
  rw [hcur]
  simp only [if_pos hch, hst]
  refine ⟨?_, ?_, ?_⟩
  · rw [ensureTurns_blocks]
    show (refresh o _).blocks ++ [o.gen st] = s.blocks ++ [o.gen st]
    rfl
  · rw [ensureTurns_blockIndex]
    show (refresh o _).blockIndex + 1 = s.blockIndex + 1
    rfl
  · rw [ensureTurns_turnIndex]

/-- C3: on a session whose current block has type choice, submitResponse
resolves the selection by index or case-insensitive text match: (1) a
nonnegative in-range index selects that option and the response is branched
with the non-null chosen option; (2) without an index hit, a nonempty
selection text resolves by case-insensitive match against the option texts;
(3) when the resolved option's next pointer names a plan step, the engine
branches there: a block generated from that step is appended and the cursor
advances; (4) an out-of-range or negative index with no text resolves to no
option; (5) an unresolved selection still yields a branched response (never
an engine error) with a null choice, advancing via the plan's sequential
successor of the current step when it exists. -/
theorem C3_choice_selection_resolution (o : Oracle) (s : SessionState) (cur : SBlock)
    (hcur : s.blocks.get? s.blockIndex = some cur)
    (hch : strToLower cur.type = "choice") :
    (∀ (i : Int) (t : Option String) (c : SChoice), 0 ≤ i →
      (cur.choices.getD []).get? i.toNat = some c →
      resolveChoice (cur.choices.getD []) (.obj (some i) t) = some c ∧
      (submitResponse o s (.obj (some i) t)).2.choiceOf = some (some c)) ∧
    (∀ (t : String) (c : SChoice), t ≠ "" →
      (cur.choices.getD []).find? (fun ch => strToLower ch.text = strToLower t) = some c →
      resolveChoice (cur.choices.getD []) (.obj none (some t)) = some c) ∧
    (∀ (r : UserResponse) (c : SChoice) (nid : String) (j : Nat) (st : SStep),
      resolveChoice (cur.choices.getD []) r = some c →
      c.next_block = some nid → nid ≠ "" →
      planIndexById s.plan nid = some j → s.plan.get? j = some st →
      (submitResponse o s r).1.blocks = s.blocks ++ [o.gen st] ∧
      (submitResponse o s r).1.blockIndex = s.blockIndex + 1 ∧
      (submitResponse o s r).1.turnIndex = 0) ∧
    (∀ i : Int, (i < 0 ∨ (cur.choices.getD []).get? i.toNat = none) →
      resolveChoice (cur.choices.getD []) (.obj (some i) none) = none) ∧
    (∀ r : UserResponse, resolveChoice (cur.choices.getD []) r = none →
      (submitResponse o s r).2.choiceOf = some none ∧
      (∀ st : SStep,
        s.plan.get? ((planIndexById s.plan cur.block_id).getD s.blockIndex + 1) = some st →
        (submitResponse o s r).1.blocks = s.blocks ++ [o.gen st] ∧
        (submitResponse o s r).1.blockIndex = s.blockIndex + 1)) := by
  refine ⟨?_, ?_, ?_, ?_, ?_⟩
  · intro i t c hi hc
    have hres : resolveChoice (cur.choices.getD []) (.obj (some i) t) = some c := by
      simp only [resolveChoice, Option.bind_eq_bind, Option.some_bind, if_pos hi, hc]
    refine ⟨hres, ?_⟩
    rw [submitResponse_choice_branched o s cur _ hcur hch, hres]
  · intro t c ht hfind
    simp only [resolveChoice, Option.bind_eq_bind, Option.none_bind, if_neg ht, hfind]
  · intro r c nid j st hres hnb hne hj hst
    have hstep : nextStepOf s cur r = some st := by
      simp only [nextStepOf, hres, hnb, if_neg hne, Option.bind_eq_bind, Option.some_bind,
        hj, hst]
    exact submitResponse_choice_advance o s cur r st hcur hch hstep
  · intro i hi
    rcases hi with hneg | hnone
    · simp only [resolveChoice, Option.bind_eq_bind, Option.some_bind,
        if_neg (by omega : ¬ (0 : Int) ≤ i)]
    · simp only [resolveChoice, Option.bind_eq_bind, Option.some_bind, hnone, ite_self]
  · intro r hres
    refine ⟨?_, ?_⟩
    · rw [submitResponse_choice_branched o s cur r hcur hch, hres]
    · intro st hst
      have hstep : nextStepOf s cur r = some st := by
        simp only [nextStepOf, hres, Option.bind_eq_bind, Option.none_bind, hst]
      exact ⟨(submitResponse_choice_advance o s cur r st hcur hch hstep).1,
        (submitResponse_choice_advance o s cur r st hcur hch hstep).2.1⟩

theorem C3_choice_selection_resolution_witness :
    resolveChoice (cblk.choices.getD []) (.obj (some 1) none) = some ⟨"B", some "s3"⟩ ∧
    (submitResponse oX st2 (.obj (some 1) none)).2.choiceOf = some (some ⟨"B", some "s3"⟩) ∧
    resolveChoice (cblk.choices.getD []) (.obj none (some "b")) = some ⟨"B", some "s3"⟩ ∧
    (submitResponse oX st2 (.obj (some 1) none)).1.blocks = st2.blocks ++ [oX.gen ⟨"s3", "narration"⟩] ∧
    (submitResponse oX st2 (.obj (some 1) none)).1.blockIndex = st2.blockIndex + 1 ∧
    resolveChoice (cblk.choices.getD []) (.obj (some 5) none) = none ∧
    (submitResponse oX st2 (.obj (some 5) none)).2.choiceOf = some none ∧
    (submitResponse oX st2 (.obj (some 5) none)).1.blocks = st2.blocks ++ [oX.gen ⟨"s2", "narration"⟩] := by
  have h := C3_choice_selection_resolution oX st2 cblk rfl rfl
  refine ⟨(h.1 1 none ⟨"B", some "s3"⟩ (by decide) rfl).1,
    (h.1 1 none ⟨"B", some "s3"⟩ (by decide) rfl).2,
    h.2.1 "b" ⟨"B", some "s3"⟩ (by decide) rfl, ?_, ?_,
    h.2.2.2.1 5 (Or.inr rfl),
    (h.2.2.2.2 (.obj (some 5) none) (h.2.2.2.1 5 (Or.inr rfl))).1,
    ((h.2.2.2.2 (.obj (some 5) none) (h.2.2.2.1 5 (Or.inr rfl))).2 ⟨"s2", "narration"⟩ rfl).1⟩
  · exact (h.2.2.1 (.obj (some 1) none) ⟨"B", some "s3"⟩ "s3" 2 ⟨"s3", "narration"⟩
      (h.1 1 none ⟨"B", some "s3"⟩ (by decide) rfl).1 rfl (by decide) rfl rfl).1
  · exact (h.2.2.1 (.obj (some 1) none) ⟨"B", some "s3"⟩ "s3" 2 ⟨"s3", "narration"⟩
      (h.1 1 none ⟨"B", some "s3"⟩ (by decide) rfl).1 rfl (by decide) rfl rfl).2.1

/-- C10: on a session whose current block has type choice, a plain-string
userResponse never selects an option — the selection index and text are read
only from object-shaped responses — so the resolved choice is none, the
branched response carries a null choice, and the branch target is always the
plan's sequential successor of the current step; by contrast the same text
sent in an object response does select the matching option case-insensitively. -/
theorem C10_plain_string_never_selects (o : Oracle) (s : SessionState) (cur : SBlock)
    (hcur : s.blocks.get? s.blockIndex = some cur)
    (hch : strToLower cur.type = "choice") :
    (∀ t : String, resolveChoice (cur.choices.getD []) (.str t) = none) ∧
    (∀ t : String, (submitResponse o s (.str t)).2.choiceOf = some none) ∧
    (∀ (t : String) (st : SStep),
      s.plan.get? ((planIndexById s.plan cur.block_id).getD s.blockIndex + 1) = some st →
      (submitResponse o s (.str t)).1.blocks = s.blocks ++ [o.gen st] ∧
      (submitResponse o s (.str t)).1.blockIndex = s.blockIndex + 1) ∧
    (∀ (t : String) (c : SChoice), t ≠ "" →
      (cur.choices.getD []).find? (fun ch => strToLower ch.text = strToLower t) = some c →
      resolveChoice (cur.choices.getD []) (.obj none (some t)) = some c) := by
  have hnone : ∀ t : String, resolveChoice (cur.choices.getD []) (.str t) = none :=
    fun t => rfl
  refine ⟨hnone, ?_, ?_, ?_⟩
  · intro t
    rw [submitResponse_choice_branched o s cur _ hcur hch, hnone t]
  · intro t st hst
    have hstep : nextStepOf s cur (.str t) = some st := by
      simp only [nextStepOf, hnone t, Option.bind_eq_bind, Option.none_bind, hst]
    exact ⟨(submitResponse_choice_advance o s cur _ st hcur hch hstep).1,
      (submitResponse_choice_advance o s cur _ st hcur hch hstep).2.1⟩
  · intro t c ht hfind
    simp only [resolveChoice, Option.bind_eq_bind, Option.none_bind, if_neg ht, hfind]

theorem C10_plain_string_never_selects_witness :
    resolveChoice (cblk.choices.getD []) (.str "b") = none ∧
    (submitResponse oX st2 (.str "b")).2.choiceOf = some none ∧
    (submitResponse oX st2 (.str "b")).1.blocks = st2.blocks ++ [oX.gen ⟨"s2", "narration"⟩] ∧
    resolveChoice (cblk.choices.getD []) (.obj none (some "b")) = some ⟨"B", some "s3"⟩ := by
  have h := C10_plain_string_never_selects oX st2 cblk rfl rfl
  exact ⟨h.1 "b", h.2.1 "b", (h.2.2.1 "b" ⟨"s2", "narration"⟩ rfl).1,
    h.2.2.2 "b" ⟨"B", some "s3"⟩ (by decide) rfl⟩

theorem ifEmpty_ne_nil (l d : List Turn) (hd : d ≠ []) :
    (if l.isEmpty = true then d else l) ≠ [] := by
  by_cases h : l.isEmpty = true
  · rw [if_pos h]; exact hd
  · rw [if_neg h]
    intro hnil
    exact h (by rw [hnil]; rfl)

theorem splitContentIntoTurns_ne_nil (c : Option String) : splitContentIntoTurns c ≠ [] := by
  cases c with
  | none => simp [splitContentIntoTurns]
  | some str =>
    by_cases h0 : str = ""
    · simp [splitContentIntoTurns, h0]
    · simp only [splitContentIntoTurns, if_neg h0]
      exact ifEmpty_ne_nil _ _ (by simp)

theorem splitContentIntoTurns_shape (c : Option String) (t : Turn)
    (h : t ∈ splitContentIntoTurns c) :
    t.question = none ∧ t.mtype = "narration" ∧ ∃ x, t.say = some x := by
  cases c with
  | none =>
    simp [splitContentIntoTurns] at h
    subst h
    exact ⟨rfl, rfl, _, rfl⟩
  | some str =>
    by_cases h0 : str = ""
    · simp [splitContentIntoTurns, h0] at h
      subst h
      exact ⟨rfl, rfl, _, rfl⟩
    · simp only [splitContentIntoTurns, if_neg h0] at h
      split at h
      · simp at h
        subst h
        exact ⟨rfl, rfl, _, rfl⟩
      · obtain ⟨p, _, rfl⟩ := List.mem_map.mp h
        exact ⟨rfl, rfl, _, rfl⟩

/-- C9: the turn derivation yields between 1 and 6 turns; empty (or missing,
i.e. non-string) content yields exactly the single fallback continuity turn;
when the block carries a socratic question it appears as a standalone
question turn at position 1 (immediately after the first say turn); and every
derived turn is either a say turn with no question, tagged narration, or the
socratic question turn with no say text, tagged socratic. -/
theorem C9_turn_splitting (content : Option String) (socratic : List String) :
    1 ≤ (computeTurns content socratic).length ∧
    (computeTurns content socratic).length ≤ 6 ∧
    splitContentIntoTurns none = [fallbackTurn] ∧
    splitContentIntoTurns (some "") = [fallbackTurn] ∧
    (∀ q rest, socratic = q :: rest →
      (computeTurns content socratic).get? 1 =
        some { say := none, question := some q, mtype := "socratic" }) ∧
    (∀ t, t ∈ computeTurns content socratic →
      (t.question = none ∧ t.mtype = "narration" ∧ ∃ x, t.say = some x) ∨
      (t.say = none ∧ t.mtype = "socratic" ∧
        ∃ q, socratic.get? 0 = some q ∧ t.question = some q)) := by
  obtain ⟨b0, bs, hb⟩ : ∃ b0 bs, splitContentIntoTurns content = b0 :: bs := by
    cases hsp : splitContentIntoTurns content with
    | nil => exact absurd hsp (splitContentIntoTurns_ne_nil content)
    | cons x xs => exact ⟨x, xs, rfl⟩
  refine ⟨?_, ?_, rfl, rfl, ?_, ?_⟩
  · cases socratic with
    | nil =>
      simp only [computeTurns]
      rw [hb, List.length_take]
      simp only [List.length_cons]
      omega
    | cons q rest =>
      simp only [computeTurns]
      rw [hb]
      have hins : List.insertIdx 1
          { say := none, question := some q, mtype := "socratic" } (b0 :: bs) =
          b0 :: { say := none, question := some q, mtype := "socratic" } :: bs := rfl
      rw [hins, List.length_take]
      simp only [List.length_cons]
      omega
  · cases socratic with
    | nil =>
      simp only [computeTurns]
      rw [List.length_take]
      omega
    | cons q rest =>
      simp only [computeTurns]
      rw [List.length_take]
      omega
  · intro q rest heq
    subst heq
    simp only [computeTurns]
    rw [hb]
    have hins : List.insertIdx 1
        { say := none, question := some q, mtype := "socratic" } (b0 :: bs) =
        b0 :: { say := none, question := some q, mtype := "socratic" } :: bs := rfl
    rw [hins]
    rfl
  · intro t ht
    cases socratic with
    | nil =>
      simp only [computeTurns] at ht
      exact Or.inl (splitContentIntoTurns_shape content t (List.take_subset _ _ ht))
    | cons q rest =>
      simp only [computeTurns] at ht
      have ht2 := List.take_subset _ _ ht
      rw [hb] at ht2
      have hins : List.insertIdx 1
          { say := none, question := some q, mtype := "socratic" } (b0 :: bs) =
          b0 :: { say := none, question := some q, mtype := "socratic" } :: bs := rfl
      rw [hins] at ht2
      rcases List.mem_cons.mp ht2 with h1 | h2
      · subst h1
        exact Or.inl (splitContentIntoTurns_shape content t (by rw [hb]; exact List.mem_cons_self _ _))
      · rcases List.mem_cons.mp h2 with h3 | h4
        · subst h3
          exact Or.inr ⟨rfl, rfl, q, rfl, rfl⟩
        · exact Or.inl (splitContentIntoTurns_shape content t
            (by rw [hb]; exact List.mem_cons_of_mem _ h4))

theorem C9_turn_splitting_witness :
    (computeTurns blk1.content blk1.socratic).length ≤ 6 ∧
    (computeTurns blk1.content blk1.socratic).get? 1 =
      some { say := none, question := some "Why?", mtype := "socratic" } := by
  have h := C9_turn_splitting blk1.content blk1.socratic
  exact ⟨h.2.1, h.2.2.2.2.1 "Why?" [] rfl⟩
